import Mathlib

/-
Verification of the OpenMOC `Geometry` orchestrator
(src/openmoc/src/host/Geometry.cpp) against its natural-language
specification.

The embedding is shallow: C++ doubles are modelled as exact rationals
(plus the two IEEE infinities where the code manipulates them), the
id-keyed `std::map` registries as lists of ids, and `log_printf(ERROR, ...)`
(which aborts the process) as an error result.  Collaborator code that is
not part of Geometry.cpp (Universe/Lattice point location, LocalCoords
bookkeeping, FSR-offset tables populated by computeFSRMaps) is modelled
from the specification; each such definition is marked
`Modelled from the spec`.
-/

namespace OpenMOC

/-! ## Extended real values

Surface axis extents can be `±infinity` (e.g. an axis-aligned plane is
unbounded in one direction), and `Geometry::Geometry` initializes
`_min_seg_length` to `+infinity`.  Finite doubles are modelled as
rationals. -/

/-- Extended value: a finite rational or one of the two IEEE infinities. -/
inductive Ext where
  | ninf : Ext
  | fin (q : ℚ) : Ext
  | pinf : Ext
deriving DecidableEq

/-- Largest finite IEEE-754 double, `DBL_MAX = (2 - 2^-52) * 2^1023`.
`Geometry::Geometry` initializes the corners to `±DBL_MAX`
("Initializing the corners to be infinite"). -/
def dblMax : ℚ := 2 ^ 1024 - 2 ^ 971

/-! ## Boundary types and surfaces -/

/-- The `boundaryType` enum of a surface: REFLECTIVE, VACUUM or BOUNDARY_NONE. -/
inductive BType where
  | reflective : BType
  | vacuum : BType
  | boundaryNone : BType
deriving DecidableEq

/-- The part of a `Surface` that `Geometry::addSurface` reads: its user id,
its boundary type, and its four axis extents (possibly infinite). -/
structure Surf where
  id : Int
  boundary : BType
  xmin : Ext
  xmax : Ext
  ymin : Ext
  ymax : Ext
deriving DecidableEq

/-! ## The Geometry state

The fields written by the constructor and by the `add*` registry
operations.  Registries are modelled by their key sets (lists of ids):
the claims under study depend only on which ids are present. -/

structure GeoState where
  x_min : ℚ
  x_max : ℚ
  y_min : ℚ
  y_max : ℚ
  top_bc : Int
  bottom_bc : Int
  left_bc : Int
  right_bc : Int
  max_seg_length : ℚ
  min_seg_length : Ext
  num_FSRs : Int
  num_groups : Int
  materials : List Int
  surfaces : List Int
  cells : List Int
  universes : List Int
  lattices : List Int
deriving DecidableEq

/-- The state built by `Geometry::Geometry()`: corners at `±DBL_MAX`,
reflective default boundary conditions, zero statistics and counters,
empty registries. -/
def initGeo : GeoState :=
  { x_min := dblMax
    y_min := dblMax
    x_max := -dblMax
    y_max := -dblMax
    top_bc := 1
    bottom_bc := 1
    left_bc := 1
    right_bc := 1
    max_seg_length := 0
    min_seg_length := Ext.pinf
    num_FSRs := 0
    num_groups := 0
    materials := []
    surfaces := []
    cells := []
    universes := []
    lattices := [] }

/-- `Geometry::getWidth()` returns `_x_max - _x_min`. -/
def getWidth (g : GeoState) : ℚ := g.x_max - g.x_min

/-- `Geometry::getHeight()` returns `_y_max - _y_min`. -/
def getHeight (g : GeoState) : ℚ := g.y_max - g.y_min

/-- The `_x_min` update of `addSurface`'s switch: replace the bound when the
surface's x-min extent is finite and strictly tightens it, writing `flag`
(1 in the REFLECTIVE case, 0 in the VACUUM case) to `_left_bc`.  The
source guards with `!= -infinity`; a `+infinity` extent never passes the
strict `<`, so matching on a finite extent is equivalent. -/
def updXmin (flag : Int) (g : GeoState) (s : Surf) : GeoState :=
  match s.xmin with
  | Ext.fin v => if v < g.x_min then { g with x_min := v, left_bc := flag } else g
  | _ => g

/-- The `_x_max` update of `addSurface`'s switch (guarded by `!= infinity`
in the source; a `-infinity` extent never passes the strict `>`). -/
def updXmax (flag : Int) (g : GeoState) (s : Surf) : GeoState :=
  match s.xmax with
  | Ext.fin v => if v > g.x_max then { g with x_max := v, right_bc := flag } else g
  | _ => g

/-- The `_y_min` update of `addSurface`'s switch. -/
def updYmin (flag : Int) (g : GeoState) (s : Surf) : GeoState :=
  match s.ymin with
  | Ext.fin v => if v < g.y_min then { g with y_min := v, bottom_bc := flag } else g
  | _ => g

/-- The `_y_max` update of `addSurface`'s switch. -/
def updYmax (flag : Int) (g : GeoState) (s : Surf) : GeoState :=
  match s.ymax with
  | Ext.fin v => if v > g.y_max then { g with y_max := v, top_bc := flag } else g
  | _ => g

/-- `Geometry::addSurface`.  A duplicate surface id returns immediately
(the error call is commented out in the source), before the registry
insert and before the bounding-box update.  Otherwise the surface is
inserted and the switch on its boundary type performs the four bound
updates in source order with flag 1 (REFLECTIVE case) or flag 0 (VACUUM
case), or nothing (BOUNDARY_NONE case). -/
def addSurface (g : GeoState) (s : Surf) : GeoState :=
  if s.id ∈ g.surfaces then g
  else
    let g1 : GeoState := { g with surfaces := s.id :: g.surfaces }
    match s.boundary with
    | BType.reflective => updYmax 1 (updYmin 1 (updXmax 1 (updXmin 1 g1 s) s) s) s
    | BType.vacuum => updYmax 0 (updYmin 0 (updXmax 0 (updXmin 0 g1 s) s) s) s
    | BType.boundaryNone => g1

/-- Sequence of `addSurface` calls, in call order. -/
def addSurfaces (g : GeoState) (ss : List Surf) : GeoState :=
  ss.foldl addSurface g

/-- The part of a `Material` that `Geometry::addMaterial` reads. -/
structure MatD where
  id : Int
  num_energy_groups : Int
deriving DecidableEq

/-- A cell is either a material cell (CellBasic, holding a material id) or a
fill cell (CellFill, holding a child universe id). -/
inductive CellKind where
  | materialK (material : Int)
  | fillK (universe_fill : Int)
deriving DecidableEq

/-- The part of a `Cell` that `Geometry::addCell` reads: id, the id of the
universe the cell lives in, its kind, and the surfaces it references. -/
structure CellD where
  id : Int
  univ : Int
  kind : CellKind
  surfs : List Surf
deriving DecidableEq

/-- The part of a `Lattice` that `Geometry::addLattice` reads: id and the
2D table of child universe ids. -/
structure LatD where
  id : Int
  grid : List (List Int)
deriving DecidableEq

/-- `Geometry::addMaterial`.  Fatal (`none`) on a duplicate id, on a
material with zero energy groups, and on an energy-group count that
disagrees with the geometry's existing count; the first material sets the
count.  The material's self-check `checkSigmaT` is an external contract
and is assumed to pass. -/
def addMaterialM (g : GeoState) (m : MatD) : Option GeoState :=
  if m.id ∈ g.materials then none
  else if m.num_energy_groups = 0 then none
  else if g.num_groups = 0 then
    some { g with num_groups := m.num_energy_groups, materials := m.id :: g.materials }
  else if g.num_groups ≠ m.num_energy_groups then none
  else some { g with materials := m.id :: g.materials }

/-- `Geometry::addCell`.  Fatal (`none`) on a duplicate cell id and on a
material cell whose material id is absent.  Otherwise every surface of the
cell is re-added through `addSurface` (which tolerates duplicates), the
cell is inserted, and a universe with the cell's universe id is created if
none exists.  (Appending the cell to the universe's own cell list mutates
the Universe object, not the Geometry registries modelled here.) -/
def addCellM (g : GeoState) (c : CellD) : Option GeoState :=
  if c.id ∈ g.cells then none
  else
    let matOk : Bool :=
      match c.kind with
      | CellKind.materialK m => decide (m ∈ g.materials)
      | CellKind.fillK _ => true
    if !matOk then none
    else
      let g1 : GeoState := c.surfs.foldl addSurface g
      let g2 : GeoState := { g1 with cells := c.id :: g1.cells }
      if c.univ ∈ g2.universes then some g2
      else some { g2 with universes := c.univ :: g2.universes }

/-- `Geometry::addUniverse`.  Fatal (`none`) on a duplicate universe id;
otherwise inserts.  (The fixup of CellFill pointers in the source is
pointer caching with no effect on the registries.) -/
def addUniverseM (g : GeoState) (uid : Int) : Option GeoState :=
  if uid ∈ g.universes then none
  else some { g with universes := uid :: g.universes }

/-- `Geometry::addLattice`.  Fatal (`none`) on a duplicate lattice id, on a
universe registry that already holds the lattice's id, and on any grid
entry whose universe id is absent.  Otherwise inserts into the lattice
registry and then also into the universe registry via `addUniverse`
(lattices are universes). -/
def addLatticeM (g : GeoState) (l : LatD) : Option GeoState :=
  if l.id ∈ g.lattices then none
  else if l.id ∈ g.universes then none
  else if l.grid.any (fun row => row.any (fun uid => decide (uid ∉ g.universes))) then none
  else
    let g1 : GeoState := { g with lattices := l.id :: g.lattices }
    addUniverseM g1 l.id

/-! ## Accumulation keys for the bounding-box claims

For each of the four bounds, the update performed by `addSurface` is a
strict-improvement fold.  `keyXmin s` is the candidate value surface `s`
offers for `_x_min` (`none` when the surface is BOUNDARY_NONE or the
extent is not finite); for the max bounds the candidate is negated so
that all four folds minimize. -/

/-- Boundary-condition flag written when a surface sets a bound:
REFLECTIVE writes 1, VACUUM writes 0.  (BOUNDARY_NONE never writes.) -/
def bcFlag : BType → Int
  | BType.reflective => 1
  | BType.vacuum => 0
  | BType.boundaryNone => 0

/-- Candidate value surface `s` offers for `_x_min`. -/
def keyXmin (s : Surf) : Option ℚ :=
  match s.boundary, s.xmin with
  | BType.boundaryNone, _ => none
  | _, Ext.fin v => some v
  | _, _ => none

/-- Candidate value surface `s` offers for `_y_min`. -/
def keyYmin (s : Surf) : Option ℚ :=
  match s.boundary, s.ymin with
  | BType.boundaryNone, _ => none
  | _, Ext.fin v => some v
  | _, _ => none

/-- Candidate value surface `s` offers for `_x_max` (unnegated). -/
def keyXmax (s : Surf) : Option ℚ :=
  match s.boundary, s.xmax with
  | BType.boundaryNone, _ => none
  | _, Ext.fin v => some v
  | _, _ => none

/-- Candidate value surface `s` offers for `_y_max` (unnegated). -/
def keyYmax (s : Surf) : Option ℚ :=
  match s.boundary, s.ymax with
  | BType.boundaryNone, _ => none
  | _, Ext.fin v => some v
  | _, _ => none

/-- One strict-improvement step of a bound/flag pair under a key. -/
def stepMin (key : Surf → Option ℚ) (cf : ℚ × Int) (s : Surf) : ℚ × Int :=
  match key s with
  | some v => if v < cf.1 then (v, bcFlag s.boundary) else cf
  | none => cf

/-- One strict-improvement step for the max bounds. -/
def stepMax (key : Surf → Option ℚ) (cf : ℚ × Int) (s : Surf) : ℚ × Int :=
  match key s with
  | some v => if v > cf.1 then (v, bcFlag s.boundary) else cf
  | none => cf

/-! ## The universe/cell hierarchy for FSR-indexed lookup

`Geometry::findCell(Universe*, int)` walks the nested universe tree.
A universe is either SIMPLE (a list of cells, iterated by the source in
ascending-id `std::map` order, which the list order represents) or a
LATTICE (a 2D table of child universes, iterated row-major).  A cell is
either MATERIAL (a leaf) or FILL (holding a child universe). -/

mutual
inductive FUniv where
  | simple (cells : List FCell) : FUniv
  | lat (grid : List (List FUniv)) : FUniv
inductive FCell where
  | mat (id : Int) : FCell
  | fill (id : Int) (child : FUniv) : FCell
end

/-! Modelled from the spec: `computeFSRMaps` (Universe.cpp / Lattice.cpp, not
part of Geometry.cpp) populates the per-universe and per-lattice FSR offset
tables read back by `getFSR`.  Per spec section 4.6, the offset of child `k`
is the sum of the FSR counts of the earlier children (a material cell counts
1, a fill cell counts the total of its child universe), with lattice cells
enumerated row-major. -/

mutual
def univFSRCount : FUniv → Nat
  | FUniv.simple cs => cellsFSRCount cs
  | FUniv.lat g => gridFSRCount g
def cellsFSRCount : List FCell → Nat
  | [] => 0
  | c :: cs => cellFSRCount c + cellsFSRCount cs
def cellFSRCount : FCell → Nat
  | FCell.mat _ => 1
  | FCell.fill _ ch => univFSRCount ch
def gridFSRCount : List (List FUniv) → Nat
  | [] => 0
  | r :: rs => rowFSRCount r + gridFSRCount rs
def rowFSRCount : List FUniv → Nat
  | [] => 0
  | u :: us => univFSRCount u + rowFSRCount us
end

/-- FSR offsets of the cells of a simple universe, in iteration order,
starting from accumulated offset `a`.  Modelled from the spec (section 4.6). -/
def cellOffsets (a : Nat) : List FCell → List (Nat × FCell)
  | [] => []
  | c :: cs => (a, c) :: cellOffsets (a + cellFSRCount c) cs

/-- FSR offsets of a row-major list of lattice cell universes.
Modelled from the spec (section 4.6). -/
def univOffsets (a : Nat) : List FUniv → List (Nat × FUniv)
  | [] => []
  | u :: us => (a, u) :: univOffsets (a + univFSRCount u) us

/-- FSR offsets of a lattice grid, row-major (outer loop over rows `i`,
inner over columns `j`), as read back by `Lattice::getFSR(j, i)`. -/
def gridOffsets (g : List (List FUniv)) : List (Nat × FUniv) :=
  univOffsets 0 g.flatten

/-- The `max_id` / selected-entry fold of `Geometry::findCell(Universe*, int)`:
starting from `max_id = 0` and no selection, an entry with offset `o` such
that `o <= fsr_id` and `o >= max_id` becomes the new selection.  (Ties on
the offset keep the later entry, as in the source's `>=`.) -/
def selMaxGo {α : Type} (fsr : Int) (st : Int × Option α) : List (Nat × α) → Int × Option α
  | [] => st
  | (o, x) :: ps =>
    selMaxGo fsr (if (o : Int) ≤ fsr ∧ (o : Int) ≥ st.1 then ((o : Int), some x) else st) ps

/-- Selected maximal offset entry, as in the source's simple-universe and
lattice loops. -/
def selMax {α : Type} (fsr : Int) (ps : List (Nat × α)) : Int × Option α :=
  selMaxGo fsr (0, none) ps

/-- The `min_id` / `cell_min` fold of `Geometry::findCell(Universe*, int)`:
starting from `min_id = INT_MAX`, an entry with a strictly smaller offset
becomes the new minimum.  Offsets are far below `INT_MAX`, so the first
entry always enters. -/
def selMinStep {α : Type} (st : Option (Nat × α)) (o : Nat) (x : α) : Option (Nat × α) :=
  match st with
  | none => some (o, x)
  | some (m, y) => if o < m then some (o, x) else some (m, y)

def selMinGo {α : Type} (st : Option (Nat × α)) : List (Nat × α) → Option (Nat × α)
  | [] => st
  | (o, x) :: ps => selMinGo (selMinStep st o x) ps

/-- Minimal offset entry (`cell_min`), first-wins on ties. -/
def selMin {α : Type} (ps : List (Nat × α)) : Option (Nat × α) :=
  selMinGo none ps

/-- Result of the FSR-indexed lookup: a found cell, a NULL cell returned
without error, a fatal `log_printf(ERROR, ...)`, or the undefined behaviour
of dereferencing a NULL `cell_min` (empty cell list). -/
inductive FCRes where
  | found (c : FCell) : FCRes
  | foundNull : FCRes
  | err : FCRes
  | ub : FCRes

theorem selMaxGo_mem {α : Type} (fsr : Int) :
    ∀ (ps : List (Nat × α)) (st : Int × Option α) (x : α),
      (selMaxGo fsr st ps).2 = some x → st.2 = some x ∨ ∃ o, (o, x) ∈ ps := by
  intro ps
  induction ps with
  | nil => intro st x h; exact Or.inl h
  | cons p ps ih =>
    intro st x h
    obtain ⟨o, y⟩ := p
    rw [selMaxGo] at h
    rcases ih _ x h with h1 | h2
    · by_cases hc : (o : Int) ≤ fsr ∧ (o : Int) ≥ st.1
      · rw [if_pos hc] at h1
        simp only [Option.some.injEq] at h1
        subst h1
        exact Or.inr ⟨o, List.mem_cons_self _ _⟩
      · rw [if_neg hc] at h1
        exact Or.inl h1
    · obtain ⟨o2, hmem⟩ := h2
      exact Or.inr ⟨o2, List.mem_cons_of_mem _ hmem⟩

theorem selMax_mem {α : Type} (fsr : Int) (ps : List (Nat × α)) (x : α)
    (h : (selMax fsr ps).2 = some x) : ∃ o, (o, x) ∈ ps := by
  rcases selMaxGo_mem fsr ps (0, none) x h with h1 | h2
  · exact absurd h1 (by simp)
  · exact h2

theorem selMinGo_mem {α : Type} :
    ∀ (ps : List (Nat × α)) (st : Option (Nat × α)) (o : Nat) (x : α),
      selMinGo st ps = some (o, x) → st = some (o, x) ∨ (o, x) ∈ ps := by
  intro ps
  induction ps with
  | nil => intro st o x h; exact Or.inl h
  | cons p ps ih =>
    intro st o x h
    obtain ⟨o2, y⟩ := p
    rw [selMinGo] at h
    rcases ih _ o x h with h1 | h2
    · match st with
      | none =>
        rw [selMinStep] at h1
        simp only [Prod.mk.injEq, Option.some.injEq] at h1
        exact Or.inr (by rw [h1.1, h1.2]; exact List.mem_cons_self _ _)
      | some (m, z) =>
        rw [selMinStep] at h1
        by_cases hc : o2 < m
        · rw [if_pos hc] at h1
          simp only [Prod.mk.injEq, Option.some.injEq] at h1
          exact Or.inr (by rw [h1.1, h1.2]; exact List.mem_cons_self _ _)
        · rw [if_neg hc] at h1
          exact Or.inl h1
    · exact Or.inr (List.mem_cons_of_mem _ h2)

theorem selMin_mem {α : Type} (ps : List (Nat × α)) (o : Nat) (x : α)
    (h : selMin ps = some (o, x)) : (o, x) ∈ ps := by
  rcases selMinGo_mem ps none o x h with h1 | h2
  · exact absurd h1 (by simp)
  · exact h2

theorem cellOffsets_mem :
    ∀ (cs : List FCell) (a o : Nat) (c : FCell), (o, c) ∈ cellOffsets a cs → c ∈ cs := by
  intro cs
  induction cs with
  | nil => intro a o c h; simp [cellOffsets] at h
  | cons c0 cs ih =>
    intro a o c h
    rw [cellOffsets] at h
    rcases List.mem_cons.mp h with h1 | h2
    · simp only [Prod.mk.injEq] at h1
      rw [h1.2]
      exact List.mem_cons_self _ _
    · exact List.mem_cons_of_mem _ (ih _ _ _ h2)

theorem univOffsets_mem :
    ∀ (us : List FUniv) (a o : Nat) (u : FUniv), (o, u) ∈ univOffsets a us → u ∈ us := by
  intro us
  induction us with
  | nil => intro a o u h; simp [univOffsets] at h
  | cons u0 us ih =>
    intro a o u h
    rw [univOffsets] at h
    rcases List.mem_cons.mp h with h1 | h2
    · simp only [Prod.mk.injEq] at h1
      rw [h1.2]
      exact List.mem_cons_self _ _
    · exact List.mem_cons_of_mem _ (ih _ _ _ h2)

theorem sizeOf_lt_of_mem_cells {c : FCell} {cs : List FCell} (h : c ∈ cs) :
    sizeOf c < sizeOf (FUniv.simple cs) := by
  have h1 := List.sizeOf_lt_of_mem h
  simp only [FUniv.simple.sizeOf_spec]
  omega

theorem sizeOf_lt_of_mem_grid {u : FUniv} {g : List (List FUniv)} (h : u ∈ g.flatten) :
    sizeOf u < sizeOf (FUniv.lat g) := by
  rcases List.mem_flatten.mp h with ⟨r, hr, hu⟩
  have h1 := List.sizeOf_lt_of_mem hu
  have h2 := List.sizeOf_lt_of_mem hr
  simp only [FUniv.lat.sizeOf_spec]
  omega

theorem sizeOf_lt_of_fill_min {o : Nat} {i : Int} {ch : FUniv} {cs : List FCell}
    (h : selMin (cellOffsets 0 cs) = some (o, FCell.fill i ch)) :
    sizeOf ch < sizeOf (FUniv.simple cs) := by
  have hm := cellOffsets_mem cs 0 o _ (selMin_mem _ _ _ h)
  have h1 := sizeOf_lt_of_mem_cells hm
  have h2 : sizeOf ch < sizeOf (FCell.fill i ch) := by
    simp only [FCell.fill.sizeOf_spec]; omega
  omega

theorem sizeOf_lt_of_selMax_grid {fsr : Int} {nu : FUniv} {g : List (List FUniv)}
    (h : (selMax fsr (gridOffsets g)).2 = some nu) :
    sizeOf nu < sizeOf (FUniv.lat g) := by
  obtain ⟨o, hmem⟩ := selMax_mem fsr _ _ h
  exact sizeOf_lt_of_mem_grid (univOffsets_mem _ _ _ _ hmem)

theorem sizeOf_lt_of_selMax_cells {fsr : Int} {i : Int} {ch : FUniv} {cs : List FCell}
    (h : (selMax fsr (cellOffsets 0 cs)).2 = some (FCell.fill i ch)) :
    sizeOf ch < sizeOf (FUniv.simple cs) := by
  obtain ⟨o, hmem⟩ := selMax_mem fsr _ _ h
  have h1 := sizeOf_lt_of_mem_cells (cellOffsets_mem cs 0 o _ hmem)
  have h2 : sizeOf ch < sizeOf (FCell.fill i ch) := by
    simp only [FCell.fill.sizeOf_spec]; omega
  omega

/-- `Geometry::findCell(Universe* univ, int fsr_id)`, the FSR-indexed lookup.
`nFSR` is the geometry's `_num_FSRs`.  The bounds guard rejects
`fsr_id < -1` and `fsr_id > _num_FSRs` (so `-1` and `_num_FSRs` pass it).
For a SIMPLE universe, the loop selects the cell with the greatest offset
`<= fsr_id` (`cell`) and, independently, the cell with the smallest offset
(`cell_min`); all subsequent type dispatch and all recursive descent use
`cell_min`, while only the residue-zero return uses `cell`.  For a LATTICE
universe, the selected maximal entry itself is descended into. -/
def findCellFSR (nFSR : Int) (u : FUniv) (fsr : Int) : FCRes :=
  if fsr < -1 ∨ fsr > nFSR then FCRes.err
  else
    match u with
    | FUniv.simple cs =>
      let mx := selMax fsr (cellOffsets 0 cs)
      match hmin : selMin (cellOffsets 0 cs) with
      | none => FCRes.ub
      | some (o, cmin) =>
        if mx.1 > fsr then
          match hcm : cmin with
          | FCell.mat _ => FCRes.err
          | FCell.fill _ ch => findCellFSR nFSR ch fsr
        else
          if fsr - mx.1 = 0 then
            match hcm : cmin with
            | FCell.mat _ =>
              match mx.2 with
              | some c => FCRes.found c
              | none => FCRes.foundNull
            | FCell.fill _ ch => findCellFSR nFSR ch (fsr - mx.1)
          else
            match hcm : cmin with
            | FCell.mat _ => FCRes.err
            | FCell.fill _ ch => findCellFSR nFSR ch (fsr - mx.1)
    | FUniv.lat g =>
      let mx := selMax fsr (gridOffsets g)
      match hnu : mx.2 with
      | none => FCRes.err
      | some nu => if mx.1 > fsr then FCRes.err else findCellFSR nFSR nu (fsr - mx.1)
termination_by sizeOf u
decreasing_by
  · exact sizeOf_lt_of_fill_min hmin
  · exact sizeOf_lt_of_fill_min hmin
  · exact sizeOf_lt_of_fill_min hmin
  · exact sizeOf_lt_of_selMax_grid hnu

/-- Modelled from the spec (section 4.6): the floor search that
`findCell(univ, fsr_id)` is specified to perform.  At each level the child
with the greatest FSR offset `<= fsr_id` is selected, its offset is
subtracted, and the search descends into that same child; a material leaf
is returned when the residue is 0 and is an error (`none`) otherwise. -/
def findCellFSRSpec (u : FUniv) (fsr : Int) : Option FCell :=
  match u with
  | FUniv.simple cs =>
    let mx := selMax fsr (cellOffsets 0 cs)
    match hsel : mx.2 with
    | none => none
    | some c =>
      match hc : c with
      | FCell.mat _ => if fsr - mx.1 = 0 then some c else none
      | FCell.fill _ ch => findCellFSRSpec ch (fsr - mx.1)
  | FUniv.lat g =>
    let mx := selMax fsr (gridOffsets g)
    match hnu : mx.2 with
    | none => none
    | some nu => findCellFSRSpec nu (fsr - mx.1)
termination_by sizeOf u
decreasing_by
  · exact sizeOf_lt_of_selMax_cells hsel
  · exact sizeOf_lt_of_selMax_grid hnu

/-- Concrete universe: two material cells (FSR offsets 0 and 1). -/
def fsrInnerA : FUniv := FUniv.simple [FCell.mat 1, FCell.mat 2]

/-- Concrete universe: one material cell (FSR offset 0). -/
def fsrInnerB : FUniv := FUniv.simple [FCell.mat 3]

/-- Concrete universe holding two fill cells, with FSR offsets 0 (two FSRs
inside) and 2 (one FSR inside); total FSR count 3. -/
def fsrTwoFill : FUniv := FUniv.simple [FCell.fill 100 fsrInnerA, FCell.fill 200 fsrInnerB]

/- Nonemptiness of every simple universe in a tree (each holds at least one
cell); the source dereferences `cell_min` without a NULL check, so this is
the precondition under which its simple-universe branch is defined. -/
mutual
def univNE : FUniv → Bool
  | FUniv.simple cs => !cs.isEmpty && cellsNE cs
  | FUniv.lat g => gridNE g
def cellsNE : List FCell → Bool
  | [] => true
  | c :: cs => cellNE c && cellsNE cs
def cellNE : FCell → Bool
  | FCell.mat _ => true
  | FCell.fill _ ch => univNE ch
def gridNE : List (List FUniv) → Bool
  | [] => true
  | r :: rs => rowNE r && gridNE rs
def rowNE : List FUniv → Bool
  | [] => true
  | u :: us => univNE u && rowNE us
end

/-! ## LocalCoords chains

A `LocalCoords` node records one nesting level: either a UNIVERSE node
(universe id and the cell found in it) or a LATTICE node (lattice id and
the `(j, i)` lattice cell indices).  Chains are lists, head (root
universe) first.  The local `(x, y)` coordinates of the nodes are carried
separately: in the lattice-free runs below every level shares the global
point (the SIMPLE descent copies `(x, y)` untransformed, spec section 4.4). -/

inductive CoordNode where
  | univN (uid : Int) (cid : Int) : CoordNode
  | latN (lid : Int) (lx ly : Int) : CoordNode
deriving DecidableEq

/-- The `_universe` field read by `LocalCoords::getUniverse()`.  For a
LATTICE-typed node the field still holds the id under which the lattice
was entered (`Lattice::findCell` retypes the node in place after the
descent had set its universe id), i.e. the lattice's own universe id. -/
def CoordNode.getUniverse : CoordNode → Int
  | CoordNode.univN u _ => u
  | CoordNode.latN l _ _ => l

/-- Whether `LocalCoords::getType()` returns LAT. -/
def CoordNode.isLat : CoordNode → Bool
  | CoordNode.univN _ _ => false
  | CoordNode.latN _ _ _ => true

/-- Whether two nodes are both LATTICE nodes with differing `(j, i)`
indices: the source's `getType() == LAT` test on both sides followed by
the comparison of `getLatticeX()` and `getLatticeY()`. -/
def bothLatDiff : CoordNode → CoordNode → Bool
  | CoordNode.latN _ tx ty, CoordNode.latN _ cx cy => decide (tx ≠ cx ∨ ty ≠ cy)
  | _, _ => false

/-- The parallel bottom-up walk of `Geometry::findNextCell` (the loop over
`test_curr` / `coords_curr`): both arguments are chains listed from the
lowest level upward (reversed chains).  The walk advances while both sides
are present with nonzero universe id; when both sides are LATTICE nodes
with differing `(j, i)` indices the new cell is rejected (the source sets
`dist = INFINITY` and breaks). -/
def walkReject : List CoordNode → List CoordNode → Bool
  | t :: ts, c :: cs =>
    if t.getUniverse ≠ 0 ∧ c.getUniverse ≠ 0 then
      if bothLatDiff t c then true else walkReject ts cs
    else false
  | _, _ => false

/-! ## A concrete executable geometry for the traversal runs

Cells are bounded by vertical planes `x = a` (the only surface kind the
runs need); a cell's interior is the conjunction of its half-space
predicates.  The hierarchy has SIMPLE universes only; the lattice-stepping
leaf operation is abstracted as a parameter (`Lattice::findNextLatticeCell`
lives outside Geometry.cpp), and the runs below never reach it. -/

/-- A signed half-space bounded by the vertical plane `x = a`: the interior
is `x > a` when `gt` and `x < a` otherwise. -/
structure HalfSp where
  a : ℚ
  gt : Bool
deriving DecidableEq

mutual
inductive TUniv where
  | simple (uid : Int) (cells : List TCell) : TUniv
inductive TCell where
  | matC (cid : Int) (mid : Int) (hs : List HalfSp) : TCell
  | fillC (cid : Int) (hs : List HalfSp) (child : TUniv) : TCell
end

/-- Outcome of the tail of Case A of `findNextCell`: either the relocated
cell is returned (with the relocated chain in place), or the coords are
restored from the saved copy and control falls through to the
lattice-stepping branch. -/
inductive CaseARes where
  | ret (c : TCell) (chain : List CoordNode) : CaseARes
  | fallth (restored : List CoordNode) : CaseARes

/-- The tail of Case A of `Geometry::findNextCell` (source lines 854-917),
parameterized by the outcome of the relocation `findCell` call: the
parallel walk compares the saved chain (`test`) against the relocated
chain; if the relocated cell is NULL or the walk rejects, the coords are
restored from `test` and control falls through to Case B, otherwise the
relocated cell is returned. -/
def caseAOutcome (saved newChain : List CoordNode) (reloc : Option TCell) : CaseARes :=
  match reloc with
  | none => CaseARes.fallth saved
  | some c =>
    if walkReject saved.reverse newChain.reverse then CaseARes.fallth saved
    else CaseARes.ret c newChain

/-- Modelled from the spec (section 4.3): a point is inside a half-space
when it is strictly on the required side of the plane. -/
def hsContains (h : HalfSp) (p : ℚ × ℚ) : Bool :=
  if h.gt then decide (h.a < p.1) else decide (p.1 < h.a)

/-- Modelled from the spec (section 4.3): `Cell::contains` is the
conjunction of the half-space predicates. -/
def cellContains (hs : List HalfSp) (p : ℚ × ℚ) : Bool :=
  hs.all (fun h => hsContains h p)

/-- Half-space list of a cell. -/
def cellHs : TCell → List HalfSp
  | TCell.matC _ _ hs => hs
  | TCell.fillC _ hs _ => hs

/-- Material id read through `static_cast<CellBasic*>(cell)->getMaterial()`;
only ever applied to material cells in the runs below. -/
def matOf : TCell → Int
  | TCell.matC _ m _ => m
  | TCell.fillC _ _ _ => 0

/-- Modelled from the spec (section 4.4): `Universe::findCell`.  Iterate the
cells in order; return the first whose predicates accept the point; descend
through fill cells, appending a UNIVERSE node per level; the innermost
material cell is returned with the chain built head-first.  `fuel` bounds
the descent depth (the concrete trees below have depth at most 2). -/
def locateCells : Nat → Int → List TCell → (ℚ × ℚ) → Option (List CoordNode × TCell)
  | _, _, [], _ => none
  | fuel, uid, c :: rest, p =>
    match c with
    | TCell.matC cid _ hs =>
      if cellContains hs p then some ([CoordNode.univN uid cid], c)
      else locateCells fuel uid rest p
    | TCell.fillC cid hs ch =>
      if cellContains hs p then
        match fuel, ch with
        | 0, _ => none
        | f + 1, TUniv.simple uid2 cs2 =>
          match locateCells f uid2 cs2 p with
          | some (chain, leaf) => some (CoordNode.univN uid cid :: chain, leaf)
          | none => none
      else locateCells fuel uid rest p

/-- Dispatch of `Geometry::findCell(LocalCoords*)` into the root universe's
point location (the trees under study have SIMPLE universes only). -/
def locateU (fuel : Nat) : TUniv → (ℚ × ℚ) → Option (List CoordNode × TCell)
  | TUniv.simple uid cs, p => locateCells fuel uid cs p

/-- The prefix of a chain ending at its last LATTICE node, `none` when the
chain has no LATTICE node. -/
def keepToLastLat : List CoordNode → Option (List CoordNode)
  | [] => none
  | n :: rest =>
    match keepToLastLat rest with
    | some pre => some (n :: pre)
    | none => if n.isLat then some [n] else none

/-- The retrace-and-prune loop of Case B of `findNextCell` (source lines
929-938 and its inlined copy at 971-981): walk upward from the lowest
level; at the first LATTICE node encountered strictly above the tail,
prune every descendant (truncate the chain after that node); if the walk
reaches the root (universe id 0, which occurs only at the head of a valid
chain) without meeting a LATTICE node, the chain is unchanged. -/
def pruneToLattice (ns : List CoordNode) : List CoordNode :=
  match keepToLastLat ns.dropLast with
  | some pre => pre
  | none => ns

/-- Traversal state: the global point of the chain (all levels share it in
the lattice-free, untransformed chains of the runs below) and the chain
nodes, head first. -/
structure FNState where
  pt : ℚ × ℚ
  nodes : List CoordNode
deriving DecidableEq

/-- TINY_MOVE = 1e-10 (cm). -/
def tinyMove : ℚ := 1 / 10 ^ 10

/-- Modelled from the spec (section 4.2): forward ray-intersection distance
with the vertical plane `x = a` from point `p` along direction
`(dx, dy)`; `none` when the ray does not intersect the plane strictly
forward.  For unit directions the ray parameter is the distance. -/
def planeFwd (a : ℚ) (p : ℚ × ℚ) (dx : ℚ) : Option ℚ :=
  if dx = 0 then none
  else if (a - p.1) / dx > 0 then some ((a - p.1) / dx) else none

/-- Modelled from the spec (section 4.3): `Cell::minSurfaceDist` is the
minimum forward distance over the cell's bounding surfaces, `INFINITY`
(`none`) when none intersects. -/
def minSurfDist (p : ℚ × ℚ) (dx : ℚ) : List HalfSp → Option ℚ → Option ℚ
  | [], best => best
  | h :: hs, best =>
    minSurfDist p dx hs
      (match best, planeFwd h.a p dx with
       | none, c => c
       | some b, none => some b
       | some b, some c => if c < b then some c else some b)

/-- The climb loop of Case B of `findNextCell` (source lines 948-992),
fuel-indexed (`none` = the loop has not terminated within `fuel`
iterations).  `fnlc` is `Lattice::findNextLatticeCell` (outside
Geometry.cpp; the lattice-free runs below never invoke it).  One iteration:
read the lowest node; exit returning NULL at universe id 0; at a LATTICE
node step the lattice (returning its cell on success, else pruning the
failed lattice node and retracing); at any other node the loop body does
nothing. -/
def climb (fnlc : FNState → Option (FNState × TCell)) :
    Nat → FNState → Option (FNState × Option TCell)
  | 0, _ => none
  | fuel + 1, st =>
    match st.nodes.getLast? with
    | none => some (st, none)
    | some curr =>
      if curr.getUniverse = 0 then some (st, none)
      else
        match curr with
        | CoordNode.univN _ _ => climb fnlc fuel st
        | CoordNode.latN _ _ _ =>
          match fnlc st with
          | some r => some (r.1, some r.2)
          | none => climb fnlc fuel { st with nodes := pruneToLattice st.nodes.dropLast }

/-- `Geometry::findNextCell` (source lines 832-998).  Locate the current
cell (NULL means return NULL); take the minimum surface distance; in the
finite case (Case A) save the chain, move to the intersection nudged by
TINY_MOVE, relocate, and either return the relocated cell or (on NULL or
parallel-walk rejection) restore and fall through to Case B; in the
infinite case (Case B) prune to the lowest lattice and climb.  `lfuel`
bounds point-location depth, `cfuel` the climb loop. -/
def findNextCellM (root : TUniv) (fnlc : FNState → Option (FNState × TCell))
    (lfuel cfuel : Nat) (st : FNState) (dx dy : ℚ) : Option (FNState × Option TCell) :=
  match locateU lfuel root st.pt with
  | none => some (st, none)
  | some (chain, cell) =>
    let st1 : FNState := { st with nodes := chain }
    match minSurfDist st1.pt dx (cellHs cell) none with
    | some d =>
      let newPt : ℚ × ℚ :=
        (st1.pt.1 + d * dx + tinyMove * dx, st1.pt.2 + d * dy + tinyMove * dy)
      match locateU lfuel root newPt with
      | some (chain2, cell2) =>
        if walkReject chain.reverse chain2.reverse then
          climb fnlc cfuel { st1 with nodes := pruneToLattice st1.nodes }
        else some ({ pt := newPt, nodes := chain2 }, some cell2)
      | none => climb fnlc cfuel { st1 with nodes := pruneToLattice st1.nodes }
    | none => climb fnlc cfuel { st1 with nodes := pruneToLattice st1.nodes }

/-- `Geometry::findFSRId` (source lines 1006-1023): walk the chain from the
given node to the tail, accumulating the lattice FSR offset at `(j, i)`
for LATTICE nodes (`lOff`) and the universe's offset for the recorded cell
at UNIVERSE nodes (`uOff`).  The offset tables live outside Geometry.cpp
and are passed as lookup functions. -/
def findFSRIdM (uOff : Int → Int → Int) (lOff : Int → Int → Int → Int) :
    Int → List CoordNode → Int
  | acc, [] => acc
  | acc, CoordNode.latN l x y :: rest => findFSRIdM uOff lOff (acc + lOff l x y) rest
  | acc, CoordNode.univN u c :: rest => findFSRIdM uOff lOff (acc + uOff u c) rest

/-- The FSR offset one chain node contributes, in the words of the spec
(section 4.6): a UNIVERSE node contributes the universe's offset for the
recorded cell, a LATTICE node the lattice's offset for `(j, i)`. -/
def nodeFSRContrib (uOff : Int → Int → Int) (lOff : Int → Int → Int → Int) :
    CoordNode → Int
  | CoordNode.univN u c => uOff u c
  | CoordNode.latN l x y => lOff l x y

/-- A segment as `Geometry::segmentize` emits it, with the squared length
in place of the floating-point length (positivity and the zero test are
unchanged by squaring; exact lengths need square roots). -/
structure SegR where
  len2 : ℚ
  matId : Int
  regionId : Int
deriving DecidableEq

/-- Outcome of a `segmentize` run: normal completion, the fatal zero-length
segment abort (with the segments appended before the abort), the fatal
start-outside abort, or fuel exhaustion. -/
inductive SegOut where
  | ok (segs : List SegR) : SegOut
  | fatalZero (segs : List SegR) : SegOut
  | fatalStart : SegOut
  | noFuel : SegOut
deriving DecidableEq

/-- The segment loop of `Geometry::segmentize` (source lines 1100-1142):
copy end to start, advance end with `findNextCell`, build the segment from
the two root-level points, abort fatally when start and end coincide
(`log_printf(ERROR, "Created a segment with the same start and end
point...")`), otherwise append the segment and continue until
`findNextCell` returns NULL.  The max/min segment-length statistics are
observational and not tracked. -/
def segLoop (root : TUniv) (fnlc : FNState → Option (FNState × TCell))
    (lfuel cfuel : Nat) (dx dy : ℚ) (fsrId : List CoordNode → Int) :
    Nat → FNState → TCell → List SegR → SegOut
  | 0, _, _, _ => SegOut.noFuel
  | n + 1, endSt, curr, acc =>
    let startSt := endSt
    match findNextCellM root fnlc lfuel cfuel endSt dx dy with
    | none => SegOut.noFuel
    | some (endSt2, next) =>
      let seg : SegR :=
        { len2 := (endSt2.pt.1 - startSt.pt.1) ^ 2 + (endSt2.pt.2 - startSt.pt.2) ^ 2
          matId := matOf curr
          regionId := fsrId startSt.nodes }
      if startSt.pt = endSt2.pt then SegOut.fatalZero acc
      else
        match next with
        | none => SegOut.ok (acc ++ [seg])
        | some c => segLoop root fnlc lfuel cfuel dx dy fsrId n endSt2 c (acc ++ [seg])

/-- `Geometry::segmentize` (source lines 1073-1154): nudge the start point
by TINY_MOVE along the track (`findFirstCell`), abort fatally if it lies
outside, then run the segment loop. -/
def segmentizeM (root : TUniv) (fnlc : FNState → Option (FNState × TCell))
    (lfuel cfuel sfuel : Nat) (fsrId : List CoordNode → Int)
    (x0 y0 dx dy : ℚ) : SegOut :=
  let p1 : ℚ × ℚ := (x0 + tinyMove * dx, y0 + tinyMove * dy)
  match locateU lfuel root p1 with
  | none => SegOut.fatalStart
  | some (chain, c) => segLoop root fnlc lfuel cfuel dx dy fsrId sfuel ⟨p1, chain⟩ c []

/-! ## Concrete geometries for the traversal claims -/

/-- Material cell A of the two-half-plane geometry: `-1 < x < 0`,
material 10. -/
def demoHalfA : TCell := TCell.matC 1 10 [⟨-1, true⟩, ⟨0, false⟩]

/-- Material cell B of the two-half-plane geometry: `0 < x < 1`,
material 20. -/
def demoHalfB : TCell := TCell.matC 2 20 [⟨0, true⟩, ⟨1, false⟩]

/-- The two-half-plane geometry: root universe 0 holding the two material
cells split by `x = 0` (spec section 8, scenario 2). -/
def demoTwoCells : TUniv := TUniv.simple 0 [demoHalfA, demoHalfB]

/-- FSR offsets of the two-half-plane geometry: cell 1 at offset 0, cell 2
at offset 1 in universe 0.  Modelled from the spec (section 4.6). -/
def demoUOff : Int → Int → Int := fun u c => if u = 0 ∧ c = 2 then 1 else 0

/-- Lattice offsets (no lattices in the demo geometries). -/
def demoLOff : Int → Int → Int → Int := fun _ _ _ => 0

/-- Inner universe 5 of the nested-fill geometry: one material cell with
interior `x > 0`, material 30. -/
def nestedInner : TUniv := TUniv.simple 5 [TCell.matC 2 30 [⟨0, true⟩]]

/-- Nested-fill geometry with no lattice: root universe 0 holds a single
fill cell (no bounding surfaces) filled with universe 5. -/
def nestedRoot : TUniv := TUniv.simple 0 [TCell.fillC 1 [] nestedInner]

/-- Placeholder for `Lattice::findNextLatticeCell` in lattice-free
geometries: never invoked by their runs. -/
def noLat : FNState → Option (FNState × TCell) := fun _ => none

/-! ## Evaluation lemmas

`findCellFSR` and `findCellFSRSpec` are defined by well-founded recursion
(their dependent match equations do not reduce definitionally); these
lemmas restate one unfolding with plain matches. -/

theorem findCellFSR_simple_eq (nFSR fsr : Int) (cs : List FCell) :
    findCellFSR nFSR (FUniv.simple cs) fsr =
      if fsr < -1 ∨ fsr > nFSR then FCRes.err
      else
        match selMin (cellOffsets 0 cs), selMax fsr (cellOffsets 0 cs) with
        | none, _ => FCRes.ub
        | some (_, FCell.mat _), mx =>
          if mx.1 > fsr then FCRes.err
          else if fsr - mx.1 = 0 then
            match mx.2 with
            | some c => FCRes.found c
            | none => FCRes.foundNull
          else FCRes.err
        | some (_, FCell.fill _ ch), mx =>
          if mx.1 > fsr then findCellFSR nFSR ch fsr
          else findCellFSR nFSR ch (fsr - mx.1) := by
  rw [findCellFSR.eq_def]
  by_cases hg : fsr < -1 ∨ fsr > nFSR
  · simp only [if_pos hg]
  · simp only [if_neg hg]
    split
    next hmin => rw [hmin]
    next o cmin hmin =>
      conv_rhs => rw [hmin]
      rcases cmin with i | ⟨i, ch⟩
      · simp only
      · simp only [ite_self]

theorem findCellFSR_lat_eq (nFSR fsr : Int) (g : List (List FUniv)) :
    findCellFSR nFSR (FUniv.lat g) fsr =
      if fsr < -1 ∨ fsr > nFSR then FCRes.err
      else
        match (selMax fsr (gridOffsets g)).2 with
        | none => FCRes.err
        | some nu =>
          if (selMax fsr (gridOffsets g)).1 > fsr then FCRes.err
          else findCellFSR nFSR nu (fsr - (selMax fsr (gridOffsets g)).1) := by
  rw [findCellFSR.eq_def]
  by_cases hg : fsr < -1 ∨ fsr > nFSR
  · simp only [if_pos hg]
  · simp only [if_neg hg]
    split
    next hnu => rw [hnu]
    next nu hnu =>
      conv_rhs => rw [hnu]

theorem findCellFSRSpec_simple_eq (fsr : Int) (cs : List FCell) :
    findCellFSRSpec (FUniv.simple cs) fsr =
      match (selMax fsr (cellOffsets 0 cs)).2 with
      | none => none
      | some (FCell.mat i) =>
        if fsr - (selMax fsr (cellOffsets 0 cs)).1 = 0 then some (FCell.mat i) else none
      | some (FCell.fill _ ch) => findCellFSRSpec ch (fsr - (selMax fsr (cellOffsets 0 cs)).1) := by
  rw [findCellFSRSpec.eq_def]
  simp only
  split
  next hsel => rw [hsel]
  next c hsel =>
    conv_rhs => rw [hsel]
    rcases c with i | ⟨i, ch⟩ <;> simp only

/-! ## Support lemmas -/

theorem findFSRIdM_acc (uo : Int → Int → Int) (lo : Int → Int → Int → Int) :
    ∀ (ns : List CoordNode) (acc : Int),
      findFSRIdM uo lo acc ns = acc + (ns.map (nodeFSRContrib uo lo)).sum := by
  intro ns
  induction ns with
  | nil => intro acc; simp [findFSRIdM]
  | cons n rest ih =>
    intro acc
    cases n with
    | univN u c => simp only [findFSRIdM, nodeFSRContrib, ih, List.map_cons, List.sum_cons]; ring
    | latN l x y => simp only [findFSRIdM, nodeFSRContrib, ih, List.map_cons, List.sum_cons]; ring

theorem selMaxGo_no_qual {α : Type} (fsr : Int) :
    ∀ (ps : List (Nat × α)) (st : Int × Option α),
      (∀ p ∈ ps, ¬((p.1 : Int) ≤ fsr)) → selMaxGo fsr st ps = st := by
  intro ps
  induction ps with
  | nil => intro st _; rfl
  | cons p ps ih =>
    intro st hq
    obtain ⟨o, x⟩ := p
    rw [selMaxGo]
    have h1 : ¬((o : Int) ≤ fsr) := hq (o, x) (List.mem_cons_self _ _)
    rw [if_neg (fun hc => h1 hc.1)]
    exact ih st (fun q hqm => hq q (List.mem_cons_of_mem _ hqm))

theorem selMax_neg_one {α : Type} (ps : List (Nat × α)) : selMax (-1) ps = (0, none) := by
  rw [selMax]
  exact selMaxGo_no_qual (-1) ps (0, none) (fun p _ => by
    have : (0 : Int) ≤ (p.1 : Int) := Int.ofNat_nonneg p.1
    omega)

theorem selMinGo_none {α : Type} :
    ∀ (ps : List (Nat × α)) (st : Option (Nat × α)),
      selMinGo st ps = none → st = none ∧ ps = [] := by
  intro ps
  induction ps with
  | nil => intro st h; exact ⟨h, rfl⟩
  | cons p ps ih =>
    intro st h
    obtain ⟨o, x⟩ := p
    rw [selMinGo] at h
    have h2 := (ih _ h).1
    match st with
    | none => rw [selMinStep] at h2; simp at h2
    | some (m, y) =>
      rw [selMinStep] at h2
      by_cases hc : o < m
      · rw [if_pos hc] at h2; simp at h2
      · rw [if_neg hc] at h2; simp at h2

theorem cellOffsets_ne_nil {cs : List FCell} (h : cs ≠ []) (a : Nat) :
    cellOffsets a cs ≠ [] := by
  match cs with
  | [] => exact absurd rfl h
  | c :: cs => rw [cellOffsets]; simp

theorem cellsNE_mem :
    ∀ (cs : List FCell), cellsNE cs = true → ∀ c ∈ cs, cellNE c = true := by
  intro cs
  induction cs with
  | nil => intro _ c hc; simp at hc
  | cons c0 cs ih =>
    intro h c hc
    rw [cellsNE, Bool.and_eq_true] at h
    rcases List.mem_cons.mp hc with h1 | h2
    · rw [h1]; exact h.1
    · exact ih h.2 c h2

/-! ## Claim theorems -/

/-- C10: a freshly constructed Geometry has all four boundary-condition
flags equal to 1 (reflective), `max_seg_length = 0`,
`min_seg_length = +infinity`, `num_FSRs = 0`, `num_groups = 0`, bounds
initialized to `x_min = y_min = +DBL_MAX` and `x_max = y_max = -DBL_MAX`,
so `getWidth()` and `getHeight()` return negative values until a surface
with finite extents is added. -/
theorem C10_fresh_geometry_defaults :
    initGeo.top_bc = 1 ∧ initGeo.bottom_bc = 1 ∧ initGeo.left_bc = 1 ∧ initGeo.right_bc = 1 ∧
    initGeo.max_seg_length = 0 ∧ initGeo.min_seg_length = Ext.pinf ∧
    initGeo.num_FSRs = 0 ∧ initGeo.num_groups = 0 ∧
    initGeo.x_min = dblMax ∧ initGeo.y_min = dblMax ∧
    initGeo.x_max = -dblMax ∧ initGeo.y_max = -dblMax ∧
    getWidth initGeo < 0 ∧ getHeight initGeo < 0 := by
  refine ⟨rfl, rfl, rfl, rfl, rfl, rfl, rfl, rfl, rfl, rfl, rfl, rfl, ?_, ?_⟩
  · rw [show getWidth initGeo = -dblMax - dblMax from rfl]
    norm_num [dblMax]
  · rw [show getHeight initGeo = -dblMax - dblMax from rfl]
    norm_num [dblMax]

/-- C9: when `addSurface` is called with a surface whose id is already
registered it returns before the bounding-box update, so the four bounds
and the four boundary-condition flags are unchanged by the call, whatever
extents or boundary type the duplicate carries. -/
theorem C9_duplicate_addSurface_preserves_bounds (g : GeoState) (s : Surf)
    (h : s.id ∈ g.surfaces) :
    (addSurface g s).x_min = g.x_min ∧ (addSurface g s).x_max = g.x_max ∧
    (addSurface g s).y_min = g.y_min ∧ (addSurface g s).y_max = g.y_max ∧
    (addSurface g s).left_bc = g.left_bc ∧ (addSurface g s).right_bc = g.right_bc ∧
    (addSurface g s).bottom_bc = g.bottom_bc ∧ (addSurface g s).top_bc = g.top_bc := by
  simp [addSurface, h]

theorem C9_duplicate_addSurface_preserves_bounds_witness :
    (7 : Int) ∈ (GeoState.surfaces { initGeo with surfaces := [7] }) ∧
    (addSurface { initGeo with surfaces := [7] }
        ⟨7, BType.vacuum, Ext.fin (-5), Ext.fin 5, Ext.fin (-5), Ext.fin 5⟩).x_min =
      (GeoState.x_min { initGeo with surfaces := [7] }) ∧
    (addSurface { initGeo with surfaces := [7] }
        ⟨7, BType.vacuum, Ext.fin (-5), Ext.fin 5, Ext.fin (-5), Ext.fin 5⟩).left_bc =
      (GeoState.left_bc { initGeo with surfaces := [7] }) := by
  have h := C9_duplicate_addSurface_preserves_bounds { initGeo with surfaces := [7] }
    ⟨7, BType.vacuum, Ext.fin (-5), Ext.fin 5, Ext.fin (-5), Ext.fin 5⟩ (by simp)
  exact ⟨by simp, h.1, h.2.2.2.2.1⟩

/-- C8: every `add*` operation called with an id already present in its
registry aborts fatally, except `addSurface`, which returns with the state
(and in particular the surface registry) unchanged; `addLattice` also
aborts when the universe registry already holds the lattice's id. -/
theorem C8_duplicate_id_policy :
    (∀ (g : GeoState) (m : MatD), m.id ∈ g.materials → addMaterialM g m = none) ∧
    (∀ (g : GeoState) (c : CellD), c.id ∈ g.cells → addCellM g c = none) ∧
    (∀ (g : GeoState) (uid : Int), uid ∈ g.universes → addUniverseM g uid = none) ∧
    (∀ (g : GeoState) (l : LatD), l.id ∈ g.lattices → addLatticeM g l = none) ∧
    (∀ (g : GeoState) (l : LatD), l.id ∈ g.universes → addLatticeM g l = none) ∧
    (∀ (g : GeoState) (s : Surf), s.id ∈ g.surfaces → addSurface g s = g) := by
  refine ⟨?_, ?_, ?_, ?_, ?_, ?_⟩
  · intro g m h; simp [addMaterialM, h]
  · intro g c h; simp [addCellM, h]
  · intro g uid h; simp [addUniverseM, h]
  · intro g l h; simp [addLatticeM, h]
  · intro g l h; by_cases h2 : l.id ∈ g.lattices <;> simp [addLatticeM, h, h2]
  · intro g s h; simp [addSurface, h]

theorem C8_duplicate_id_policy_witness :
    addMaterialM { initGeo with materials := [3] } ⟨3, 2⟩ = none ∧
    addCellM { initGeo with cells := [4] } ⟨4, 0, CellKind.fillK 9, []⟩ = none ∧
    addUniverseM { initGeo with universes := [5] } 5 = none ∧
    addLatticeM { initGeo with lattices := [6] } ⟨6, []⟩ = none ∧
    addLatticeM { initGeo with universes := [6] } ⟨6, []⟩ = none ∧
    addSurface { initGeo with surfaces := [7] }
        ⟨7, BType.vacuum, Ext.fin (-5), Ext.fin 5, Ext.fin (-5), Ext.fin 5⟩ =
      { initGeo with surfaces := [7] } := by
  exact ⟨C8_duplicate_id_policy.1 _ _ (by simp),
    C8_duplicate_id_policy.2.1 _ _ (by simp),
    C8_duplicate_id_policy.2.2.1 _ _ (by simp),
    C8_duplicate_id_policy.2.2.2.1 _ _ (by simp),
    C8_duplicate_id_policy.2.2.2.2.1 _ _ (by simp),
    C8_duplicate_id_policy.2.2.2.2.2 _ _ (by simp)⟩

/-- C5: `findFSRId(coords)` returns exactly the sum, over the nodes of the
chain from head to tail, of the FSR offset contributed at each level: for
a UNIVERSE node the universe's offset for the recorded cell, for a LATTICE
node the lattice's offset for the recorded `(j, i)` index. -/
theorem C5_findFSRId_sums_level_offsets (uo : Int → Int → Int) (lo : Int → Int → Int → Int)
    (chain : List CoordNode) :
    findFSRIdM uo lo 0 chain = (chain.map (nodeFSRContrib uo lo)).sum := by
  simpa using findFSRIdM_acc uo lo chain 0

/-- C4: the spec's floor search selects the child with the greatest FSR
offset `<= fsr_id` and recurses into it; the code selects that child
(`cell`) but dispatches and recurses on the minimum-offset cell
(`cell_min`) instead.  In the three-FSR universe `fsrTwoFill` (two fill
cells at offsets 0 and 2), looking up `fsr_id = 2` must reach the second
fill cell's material (id 3); the code instead recurses into the first fill
cell with residue 0 and returns its first material (id 1). -/
theorem C4_floor_search_recurses_into_cell_min :
    univFSRCount fsrTwoFill = 3 ∧
    findCellFSR 3 fsrTwoFill 2 = FCRes.found (FCell.mat 1) ∧
    findCellFSRSpec fsrTwoFill 2 = some (FCell.mat 3) := by
  refine ⟨by norm_num [fsrTwoFill, fsrInnerA, fsrInnerB, univFSRCount, cellsFSRCount,
    cellFSRCount], ?_, ?_⟩
  · norm_num [findCellFSR_simple_eq, fsrTwoFill, fsrInnerA, fsrInnerB, cellOffsets,
      cellFSRCount, univFSRCount, cellsFSRCount, selMax, selMaxGo, selMin, selMinGo,
      selMinStep]
  · norm_num [findCellFSRSpec_simple_eq, fsrTwoFill, fsrInnerA, fsrInnerB, cellOffsets,
      cellFSRCount, univFSRCount, cellsFSRCount, selMax, selMaxGo]

/-- C3 counterexample: the claim asserts a fatal abort for every `fsr_id`
outside `[0, num_FSRs)`, in particular for `fsr_id = num_FSRs`.  In the
universe `fsrTwoFill` with `num_FSRs = 3`, the lookup at `fsr_id = 3`
passes the guard (`3 > 3` is false) and completes without error,
returning a cell. -/
theorem C3_num_FSRs_lookup_not_fatal :
    univFSRCount fsrTwoFill = 3 ∧
    findCellFSR 3 fsrTwoFill 3 = FCRes.found (FCell.mat 2) ∧
    findCellFSR 3 fsrTwoFill 3 ≠ FCRes.err := by
  have h : findCellFSR 3 fsrTwoFill 3 = FCRes.found (FCell.mat 2) := by
    norm_num [findCellFSR_simple_eq, fsrTwoFill, fsrInnerA, fsrInnerB, cellOffsets,
      cellFSRCount, univFSRCount, cellsFSRCount, selMax, selMaxGo, selMin, selMinGo,
      selMinStep]
  refine ⟨by norm_num [fsrTwoFill, fsrInnerA, fsrInnerB, univFSRCount, cellsFSRCount,
    cellFSRCount], h, ?_⟩
  rw [h]
  simp

theorem findCellFSR_neg_one_err :
    ∀ (m : Nat) (n : Int) (u : FUniv), sizeOf u ≤ m → -1 ≤ n → univNE u = true →
      findCellFSR n u (-1) = FCRes.err := by
  intro m
  induction m with
  | zero =>
    intro n u hsz _ _
    exfalso
    cases u with
    | simple cs => simp only [FUniv.simple.sizeOf_spec] at hsz; omega
    | lat g => simp only [FUniv.lat.sizeOf_spec] at hsz; omega
  | succ m ih =>
    intro n u hsz hn hne
    cases u with
    | simple cs =>
      rw [findCellFSR_simple_eq, if_neg (by omega), selMax_neg_one]
      cases hmin : selMin (cellOffsets 0 cs) with
      | none =>
        exfalso
        have h1 := selMinGo_none _ _ hmin
        have hcs : cs ≠ [] := by
          rw [univNE, Bool.and_eq_true] at hne
          intro hnil
          rw [hnil] at hne
          simp [List.isEmpty] at hne
        exact cellOffsets_ne_nil hcs 0 h1.2
      | some oc =>
        obtain ⟨o, cmin⟩ := oc
        cases cmin with
        | mat i =>
          simp only
          rw [if_pos (by norm_num)]
        | fill i ch =>
          simp only
          rw [if_pos (by norm_num)]
          have hlt : sizeOf ch < sizeOf (FUniv.simple cs) := sizeOf_lt_of_fill_min hmin
          refine ih n ch (by omega) hn ?_
          have hm := cellOffsets_mem cs 0 o _ (selMin_mem _ _ _ hmin)
          rw [univNE, Bool.and_eq_true] at hne
          have h3 := cellsNE_mem cs hne.2 _ hm
          rw [cellNE] at h3
          exact h3
    | lat g =>
      rw [findCellFSR_lat_eq, if_neg (by omega), selMax_neg_one]

/-- C3 amended: the guard of `findCell(univ, fsr_id)` aborts exactly for
`fsr_id < -1` and `fsr_id > num_FSRs`, so `-1` and `num_FSRs` pass it; a
call with `fsr_id = -1` nevertheless always aborts during the search (in
any hierarchy whose simple universes are nonempty), and the search aborts
at a simple universe whose minimum-offset cell is a material cell while
the residual `fsr_id` is nonzero.  (A call with `fsr_id = num_FSRs` can
complete without error, per the counterexample.) -/
theorem C3_amended_out_of_range_aborts :
    (∀ (n fsr : Int) (u : FUniv), fsr < -1 ∨ fsr > n → findCellFSR n u fsr = FCRes.err) ∧
    (∀ (n : Int) (u : FUniv), -1 ≤ n → univNE u = true →
      findCellFSR n u (-1) = FCRes.err) ∧
    (∀ (n fsr : Int) (cs : List FCell) (o : Nat) (i : Int),
      -1 ≤ fsr → fsr ≤ n →
      selMin (cellOffsets 0 cs) = some (o, FCell.mat i) →
      fsr - (selMax fsr (cellOffsets 0 cs)).1 ≠ 0 →
      findCellFSR n (FUniv.simple cs) fsr = FCRes.err) := by
  refine ⟨?_, ?_, ?_⟩
  · intro n fsr u h
    rw [findCellFSR.eq_def, if_pos h]
  · intro n u hn hne
    exact findCellFSR_neg_one_err (sizeOf u) n u (le_refl _) hn hne
  · intro n fsr cs o i h1 h2 hmin hres
    rw [findCellFSR_simple_eq, if_neg (by omega), hmin]
    simp only
    by_cases hgt : (selMax fsr (cellOffsets 0 cs)).1 > fsr
    · rw [if_pos hgt]
    · rw [if_neg hgt, if_neg hres]

theorem C3_amended_out_of_range_aborts_witness :
    findCellFSR 3 fsrTwoFill (-2) = FCRes.err ∧
    findCellFSR 3 fsrTwoFill (-1) = FCRes.err ∧
    findCellFSR 1 (FUniv.simple [FCell.mat 5]) 1 = FCRes.err := by
  refine ⟨C3_amended_out_of_range_aborts.1 3 (-2) fsrTwoFill (by norm_num), ?_, ?_⟩
  · refine C3_amended_out_of_range_aborts.2.1 3 fsrTwoFill (by norm_num) ?_
    simp [univNE, cellsNE, cellNE, fsrTwoFill, fsrInnerA, fsrInnerB, List.isEmpty]
  · refine C3_amended_out_of_range_aborts.2.2 1 1 [FCell.mat 5] 0 5 (by norm_num)
      (by norm_num) ?_ ?_
    · norm_num [selMin, selMinGo, selMinStep, cellOffsets, cellFSRCount]
    · norm_num [selMax, selMaxGo, cellOffsets, cellFSRCount]

theorem climb_univ_spin (fnlc : FNState → Option (FNState × TCell)) :
    ∀ (fuel : Nat) (st : FNState) (u c : Int), u ≠ 0 →
      st.nodes.getLast? = some (CoordNode.univN u c) → climb fnlc fuel st = none := by
  intro fuel
  induction fuel with
  | zero => intro st u c _ _; rfl
  | succ f ih =>
    intro st u c hu hl
    rw [climb, hl]
    simp only [CoordNode.getUniverse]
    rw [if_neg hu]
    exact ih st u c hu hl

/-- C2: for a head-to-leaf chain with no LATTICE node below the root (here
universe 0 filled through a fill cell by universe 5), when the minimum
surface distance is infinite the climb of Case B must reach the root and
return NULL; instead the climb loop's body is a no-op on non-root UNIVERSE
nodes, so `findNextCell` never terminates: for every loop fuel (and every
behaviour of the lattice-stepping leaf operation) the fuelled model fails
to produce a result. -/
theorem C2_findNextCell_climb_diverges_without_lattice
    (fnlc : FNState → Option (FNState × TCell)) (cfuel : Nat) :
    findNextCellM nestedRoot fnlc 9 cfuel ⟨(1, 0), []⟩ 1 0 = none := by
  have hstep : findNextCellM nestedRoot fnlc 9 cfuel ⟨(1, 0), []⟩ 1 0 =
      climb fnlc cfuel ⟨(1, 0), [CoordNode.univN 0 1, CoordNode.univN 5 2]⟩ := by
    norm_num [findNextCellM, locateU, locateCells, nestedRoot, nestedInner, cellContains,
      hsContains, minSurfDist, planeFwd, cellHs, pruneToLattice, keepToLastLat,
      CoordNode.isLat]
  rw [hstep]
  exact climb_univ_spin fnlc cfuel _ 5 2 (by norm_num) rfl

/-- C1: a track that starts inside the two-half-plane geometry and leaves
it is claimed to terminate normally with every emitted segment of positive
length.  In the run below (start `(-1, 1/2)`, angle 0) the first segment
(squared length 1, material 10, FSR 0) is emitted; on the next iteration
`findNextCell` returns NULL with the end coordinates restored to the
segment start (second conjunct), so the final segment has zero length and
the fatal zero-length check aborts the run (first conjunct). -/
theorem C1_segmentize_zero_length_abort_on_exit :
    segmentizeM demoTwoCells noLat 9 9 20 (findFSRIdM demoUOff demoLOff 0) (-1) (1/2) 1 0 =
      SegOut.fatalZero [{ len2 := 1, matId := 10, regionId := 0 }] ∧
    findNextCellM demoTwoCells noLat 9 9 ⟨(tinyMove, 1/2), [CoordNode.univN 0 2]⟩ 1 0 =
      some (⟨(tinyMove, 1/2), [CoordNode.univN 0 2]⟩, none) := by
  constructor
  · norm_num [segmentizeM, segLoop, findNextCellM, locateU, locateCells, demoTwoCells,
      demoHalfA, demoHalfB, cellContains, hsContains, tinyMove, minSurfDist, planeFwd,
      cellHs, matOf, findFSRIdM, demoUOff, demoLOff, climb, pruneToLattice, keepToLastLat,
      walkReject, CoordNode.getUniverse, CoordNode.isLat]
  · norm_num [findNextCellM, locateU, locateCells, demoTwoCells, demoHalfA, demoHalfB,
      cellContains, hsContains, tinyMove, minSurfDist, planeFwd, cellHs, climb,
      pruneToLattice, keepToLastLat, CoordNode.getUniverse, CoordNode.isLat]

/-- The rejection condition of the parallel walk as the claim states it:
at some level of the two bottom-up chains, reached with both sides present
and below the root, both sides are LATTICE nodes whose `(j, i)` indices
differ. -/
def RejSpec (r1 r2 : List CoordNode) : Prop :=
  ∃ pre p suf, r1.zip r2 = pre ++ p :: suf ∧
    (∀ q ∈ pre, q.1.getUniverse ≠ 0 ∧ q.2.getUniverse ≠ 0) ∧
    (p.1.getUniverse ≠ 0 ∧ p.2.getUniverse ≠ 0) ∧
    bothLatDiff p.1 p.2 = true

theorem walkReject_iff :
    ∀ (r1 r2 : List CoordNode), walkReject r1 r2 = true ↔ RejSpec r1 r2 := by
  intro r1
  induction r1 with
  | nil =>
    intro r2
    constructor
    · intro h; simp [walkReject] at h
    · rintro ⟨pre, p, suf, hz, _, _, _⟩
      simp only [List.zip_nil_left] at hz
      exact absurd hz.symm (List.append_ne_nil_of_right_ne_nil _ (by simp))
  | cons t ts ih =>
    intro r2
    cases r2 with
    | nil =>
      constructor
      · intro h; simp [walkReject] at h
      · rintro ⟨pre, p, suf, hz, _, _, _⟩
        simp only [List.zip_nil_right] at hz
        exact absurd hz.symm (List.append_ne_nil_of_right_ne_nil _ (by simp))
    | cons c cs =>
      have hzc : (t :: ts).zip (c :: cs) = (t, c) :: ts.zip cs := rfl
      constructor
      · intro h
        rw [walkReject] at h
        by_cases hg : t.getUniverse ≠ 0 ∧ c.getUniverse ≠ 0
        · rw [if_pos hg] at h
          by_cases hd : bothLatDiff t c = true
          · exact ⟨[], (t, c), ts.zip cs, by rw [hzc]; rfl, by simp, hg, hd⟩
          · rw [if_neg hd] at h
            obtain ⟨pre, p, suf, hz2, hpre, hp, hdp⟩ := (ih cs).mp h
            refine ⟨(t, c) :: pre, p, suf, by rw [hzc, hz2]; rfl, ?_, hp, hdp⟩
            intro q hq
            rcases List.mem_cons.mp hq with h1 | h2
            · rw [h1]; exact hg
            · exact hpre q h2
        · rw [if_neg hg] at h
          exact absurd h (by simp)
      · rintro ⟨pre, p, suf, hz, hpre, hp, hd⟩
        rw [hzc] at hz
        rw [walkReject]
        cases pre with
        | nil =>
          simp only [List.nil_append, List.cons.injEq] at hz
          have hp1 : p = (t, c) := hz.1.symm
          rw [hp1] at hp hd
          rw [if_pos hp, if_pos hd]
        | cons q pre2 =>
          simp only [List.cons_append, List.cons.injEq] at hz
          have hq : q = (t, c) := hz.1.symm
          have hg : t.getUniverse ≠ 0 ∧ c.getUniverse ≠ 0 := by
            have h5 := hpre q (List.mem_cons_self _ _)
            rw [hq] at h5
            exact h5
          rw [if_pos hg]
          have hrec : walkReject ts cs = true := by
            refine (ih cs).mpr ⟨pre2, p, suf, hz.2, ?_, hp, hd⟩
            intro r hr
            exact hpre r (List.mem_cons_of_mem _ hr)
          rw [hrec]
          split <;> rfl

/-- C6: in Case A of `findNextCell`, the relocated cell is rejected exactly
when the parallel bottom-up walk of the saved and relocated chains meets a
level with LATTICE nodes on both sides whose `(j, i)` indices differ; on
rejection or a NULL relocation the coords are restored from the saved copy
and control falls through to the lattice-stepping branch, and otherwise
the relocated cell is returned with the relocated chain. -/
theorem C6_caseA_reject_restore_return (saved newC : List CoordNode) (reloc : Option TCell) :
    (walkReject saved.reverse newC.reverse = true ↔ RejSpec saved.reverse newC.reverse) ∧
    (reloc = none → caseAOutcome saved newC reloc = CaseARes.fallth saved) ∧
    (walkReject saved.reverse newC.reverse = true →
      caseAOutcome saved newC reloc = CaseARes.fallth saved) ∧
    (∀ c, reloc = some c → walkReject saved.reverse newC.reverse = false →
      caseAOutcome saved newC reloc = CaseARes.ret c newC) := by
  refine ⟨walkReject_iff _ _, ?_, ?_, ?_⟩
  · intro h; rw [h]; rfl
  · intro hw
    cases reloc with
    | none => rfl
    | some c => simp [caseAOutcome, hw]
  · intro c hc hw
    rw [hc]
    simp [caseAOutcome, hw]

theorem C6_caseA_reject_restore_return_witness :
    walkReject (List.reverse [CoordNode.univN 0 1, CoordNode.latN 7 0 0, CoordNode.univN 3 5])
        (List.reverse [CoordNode.univN 0 1, CoordNode.latN 7 1 0, CoordNode.univN 3 5]) =
      true ∧
    caseAOutcome [CoordNode.univN 0 1, CoordNode.latN 7 0 0, CoordNode.univN 3 5]
        [CoordNode.univN 0 1, CoordNode.latN 7 1 0, CoordNode.univN 3 5] (some demoHalfA) =
      CaseARes.fallth [CoordNode.univN 0 1, CoordNode.latN 7 0 0, CoordNode.univN 3 5] := by
  have hw : walkReject
      (List.reverse [CoordNode.univN 0 1, CoordNode.latN 7 0 0, CoordNode.univN 3 5])
      (List.reverse [CoordNode.univN 0 1, CoordNode.latN 7 1 0, CoordNode.univN 3 5]) =
      true := by
    norm_num [walkReject, bothLatDiff, CoordNode.getUniverse, List.reverse]
  exact ⟨hw, (C6_caseA_reject_restore_return _ _ (some demoHalfA)).2.2.1 hw⟩

theorem updXmin_keeps (f : Int) (g : GeoState) (s : Surf) :
    (updXmin f g s).x_max = g.x_max ∧ (updXmin f g s).right_bc = g.right_bc ∧
    (updXmin f g s).y_min = g.y_min ∧ (updXmin f g s).bottom_bc = g.bottom_bc ∧
    (updXmin f g s).y_max = g.y_max ∧ (updXmin f g s).top_bc = g.top_bc ∧
    (updXmin f g s).surfaces = g.surfaces := by
  unfold updXmin
  cases s.xmin <;>
    refine ⟨?_, ?_, ?_, ?_, ?_, ?_, ?_⟩ <;>
    (repeat' split) <;> rfl

theorem updXmax_keeps (f : Int) (g : GeoState) (s : Surf) :
    (updXmax f g s).x_min = g.x_min ∧ (updXmax f g s).left_bc = g.left_bc ∧
    (updXmax f g s).y_min = g.y_min ∧ (updXmax f g s).bottom_bc = g.bottom_bc ∧
    (updXmax f g s).y_max = g.y_max ∧ (updXmax f g s).top_bc = g.top_bc ∧
    (updXmax f g s).surfaces = g.surfaces := by
  unfold updXmax
  cases s.xmax <;>
    refine ⟨?_, ?_, ?_, ?_, ?_, ?_, ?_⟩ <;>
    (repeat' split) <;> rfl

theorem updYmin_keeps (f : Int) (g : GeoState) (s : Surf) :
    (updYmin f g s).x_min = g.x_min ∧ (updYmin f g s).left_bc = g.left_bc ∧
    (updYmin f g s).x_max = g.x_max ∧ (updYmin f g s).right_bc = g.right_bc ∧
    (updYmin f g s).y_max = g.y_max ∧ (updYmin f g s).top_bc = g.top_bc ∧
    (updYmin f g s).surfaces = g.surfaces := by
  unfold updYmin
  cases s.ymin <;>
    refine ⟨?_, ?_, ?_, ?_, ?_, ?_, ?_⟩ <;>
    (repeat' split) <;> rfl

theorem updYmax_keeps (f : Int) (g : GeoState) (s : Surf) :
    (updYmax f g s).x_min = g.x_min ∧ (updYmax f g s).left_bc = g.left_bc ∧
    (updYmax f g s).x_max = g.x_max ∧ (updYmax f g s).right_bc = g.right_bc ∧
    (updYmax f g s).y_min = g.y_min ∧ (updYmax f g s).bottom_bc = g.bottom_bc ∧
    (updYmax f g s).surfaces = g.surfaces := by
  unfold updYmax
  cases s.ymax <;>
    refine ⟨?_, ?_, ?_, ?_, ?_, ?_, ?_⟩ <;>
    (repeat' split) <;> rfl

theorem addSurface_surfaces (g : GeoState) (s : Surf) (h : s.id ∉ g.surfaces) :
    (addSurface g s).surfaces = s.id :: g.surfaces := by
  rw [addSurface, if_neg h]
  cases s.boundary
  case reflective =>
    rw [(updYmax_keeps 1 _ s).2.2.2.2.2.2, (updYmin_keeps 1 _ s).2.2.2.2.2.2,
      (updXmax_keeps 1 _ s).2.2.2.2.2.2, (updXmin_keeps 1 _ s).2.2.2.2.2.2]
  case vacuum =>
    rw [(updYmax_keeps 0 _ s).2.2.2.2.2.2, (updYmin_keeps 0 _ s).2.2.2.2.2.2,
      (updXmax_keeps 0 _ s).2.2.2.2.2.2, (updXmin_keeps 0 _ s).2.2.2.2.2.2]
  case boundaryNone => rfl

theorem updXmin_action (f : Int) (g : GeoState) (s : Surf) :
    ((updXmin f g s).x_min, (updXmin f g s).left_bc) =
      match s.xmin with
      | Ext.fin v => if v < g.x_min then (v, f) else (g.x_min, g.left_bc)
      | _ => (g.x_min, g.left_bc) := by
  unfold updXmin
  cases s.xmin <;>
    (repeat' split) <;> rfl

theorem updXmax_action (f : Int) (g : GeoState) (s : Surf) :
    ((updXmax f g s).x_max, (updXmax f g s).right_bc) =
      match s.xmax with
      | Ext.fin v => if v > g.x_max then (v, f) else (g.x_max, g.right_bc)
      | _ => (g.x_max, g.right_bc) := by
  unfold updXmax
  cases s.xmax <;>
    (repeat' split) <;> rfl

theorem updYmin_action (f : Int) (g : GeoState) (s : Surf) :
    ((updYmin f g s).y_min, (updYmin f g s).bottom_bc) =
      match s.ymin with
      | Ext.fin v => if v < g.y_min then (v, f) else (g.y_min, g.bottom_bc)
      | _ => (g.y_min, g.bottom_bc) := by
  unfold updYmin
  cases s.ymin <;>
    (repeat' split) <;> rfl

theorem updYmax_action (f : Int) (g : GeoState) (s : Surf) :
    ((updYmax f g s).y_max, (updYmax f g s).top_bc) =
      match s.ymax with
      | Ext.fin v => if v > g.y_max then (v, f) else (g.y_max, g.top_bc)
      | _ => (g.y_max, g.top_bc) := by
  unfold updYmax
  cases s.ymax <;>
    (repeat' split) <;> rfl

theorem addSurface_xmin_step (g : GeoState) (s : Surf) (h : s.id ∉ g.surfaces) :
    ((addSurface g s).x_min, (addSurface g s).left_bc) =
      stepMin keyXmin (g.x_min, g.left_bc) s := by
  rw [addSurface, if_neg h]
  cases hb : s.boundary
  case reflective =>
    rw [show ((updYmax 1 (updYmin 1 (updXmax 1
          (updXmin 1 { g with surfaces := s.id :: g.surfaces } s) s) s) s).x_min,
        (updYmax 1 (updYmin 1 (updXmax 1
          (updXmin 1 { g with surfaces := s.id :: g.surfaces } s) s) s) s).left_bc) =
        ((updXmin 1 { g with surfaces := s.id :: g.surfaces } s).x_min,
         (updXmin 1 { g with surfaces := s.id :: g.surfaces } s).left_bc) by
      rw [(updYmax_keeps _ _ s).1, (updYmax_keeps _ _ s).2.1, (updYmin_keeps _ _ s).1,
        (updYmin_keeps _ _ s).2.1, (updXmax_keeps _ _ s).1, (updXmax_keeps _ _ s).2.1]]
    rw [updXmin_action]
    cases hx : s.xmin <;>
      simp only [stepMin, keyXmin, hb, hx, bcFlag] <;>
      (repeat' split) <;> simp_all
  case vacuum =>
    rw [show ((updYmax 0 (updYmin 0 (updXmax 0
          (updXmin 0 { g with surfaces := s.id :: g.surfaces } s) s) s) s).x_min,
        (updYmax 0 (updYmin 0 (updXmax 0
          (updXmin 0 { g with surfaces := s.id :: g.surfaces } s) s) s) s).left_bc) =
        ((updXmin 0 { g with surfaces := s.id :: g.surfaces } s).x_min,
         (updXmin 0 { g with surfaces := s.id :: g.surfaces } s).left_bc) by
      rw [(updYmax_keeps _ _ s).1, (updYmax_keeps _ _ s).2.1, (updYmin_keeps _ _ s).1,
        (updYmin_keeps _ _ s).2.1, (updXmax_keeps _ _ s).1, (updXmax_keeps _ _ s).2.1]]
    rw [updXmin_action]
    cases hx : s.xmin <;>
      simp only [stepMin, keyXmin, hb, hx, bcFlag] <;>
      (repeat' split) <;> simp_all
  case boundaryNone =>
    simp only [stepMin, keyXmin, hb]

theorem addSurface_xmax_step (g : GeoState) (s : Surf) (h : s.id ∉ g.surfaces) :
    ((addSurface g s).x_max, (addSurface g s).right_bc) =
      stepMax keyXmax (g.x_max, g.right_bc) s := by
  rw [addSurface, if_neg h]
  cases hb : s.boundary
  case reflective =>
    rw [show ((updYmax 1 (updYmin 1 (updXmax 1
          (updXmin 1 { g with surfaces := s.id :: g.surfaces } s) s) s) s).x_max,
        (updYmax 1 (updYmin 1 (updXmax 1
          (updXmin 1 { g with surfaces := s.id :: g.surfaces } s) s) s) s).right_bc) =
        ((updXmax 1 (updXmin 1 { g with surfaces := s.id :: g.surfaces } s) s).x_max,
         (updXmax 1 (updXmin 1 { g with surfaces := s.id :: g.surfaces } s) s).right_bc) by
      rw [(updYmax_keeps _ _ s).2.2.1, (updYmax_keeps _ _ s).2.2.2.1,
        (updYmin_keeps _ _ s).2.2.1, (updYmin_keeps _ _ s).2.2.2.1]]
    rw [updXmax_action, (updXmin_keeps _ _ s).1, (updXmin_keeps _ _ s).2.1]
    cases hx : s.xmax <;>
      simp only [stepMax, keyXmax, hb, hx, bcFlag] <;>
      (repeat' split) <;> simp_all
  case vacuum =>
    rw [show ((updYmax 0 (updYmin 0 (updXmax 0
          (updXmin 0 { g with surfaces := s.id :: g.surfaces } s) s) s) s).x_max,
        (updYmax 0 (updYmin 0 (updXmax 0
          (updXmin 0 { g with surfaces := s.id :: g.surfaces } s) s) s) s).right_bc) =
        ((updXmax 0 (updXmin 0 { g with surfaces := s.id :: g.surfaces } s) s).x_max,
         (updXmax 0 (updXmin 0 { g with surfaces := s.id :: g.surfaces } s) s).right_bc) by
      rw [(updYmax_keeps _ _ s).2.2.1, (updYmax_keeps _ _ s).2.2.2.1,
        (updYmin_keeps _ _ s).2.2.1, (updYmin_keeps _ _ s).2.2.2.1]]
    rw [updXmax_action, (updXmin_keeps _ _ s).1, (updXmin_keeps _ _ s).2.1]
    cases hx : s.xmax <;>
      simp only [stepMax, keyXmax, hb, hx, bcFlag] <;>
      (repeat' split) <;> simp_all
  case boundaryNone =>
    simp only [stepMax, keyXmax, hb]

theorem addSurface_ymin_step (g : GeoState) (s : Surf) (h : s.id ∉ g.surfaces) :
    ((addSurface g s).y_min, (addSurface g s).bottom_bc) =
      stepMin keyYmin (g.y_min, g.bottom_bc) s := by
  rw [addSurface, if_neg h]
  cases hb : s.boundary
  case reflective =>
    rw [show ((updYmax 1 (updYmin 1 (updXmax 1
          (updXmin 1 { g with surfaces := s.id :: g.surfaces } s) s) s) s).y_min,
        (updYmax 1 (updYmin 1 (updXmax 1
          (updXmin 1 { g with surfaces := s.id :: g.surfaces } s) s) s) s).bottom_bc) =
        ((updYmin 1 (updXmax 1 (updXmin 1 { g with surfaces := s.id :: g.surfaces } s) s) s).y_min,
         (updYmin 1 (updXmax 1 (updXmin 1 { g with surfaces := s.id :: g.surfaces } s) s) s).bottom_bc) by
      rw [(updYmax_keeps _ _ s).2.2.2.2.1, (updYmax_keeps _ _ s).2.2.2.2.2.1]]
    rw [updYmin_action, (updXmax_keeps _ _ s).2.2.1, (updXmax_keeps _ _ s).2.2.2.1,
      (updXmin_keeps _ _ s).2.2.1, (updXmin_keeps _ _ s).2.2.2.1]
    cases hx : s.ymin <;>
      simp only [stepMin, keyYmin, hb, hx, bcFlag] <;>
      (repeat' split) <;> simp_all
  case vacuum =>
    rw [show ((updYmax 0 (updYmin 0 (updXmax 0
          (updXmin 0 { g with surfaces := s.id :: g.surfaces } s) s) s) s).y_min,
        (updYmax 0 (updYmin 0 (updXmax 0
          (updXmin 0 { g with surfaces := s.id :: g.surfaces } s) s) s) s).bottom_bc) =
        ((updYmin 0 (updXmax 0 (updXmin 0 { g with surfaces := s.id :: g.surfaces } s) s) s).y_min,
         (updYmin 0 (updXmax 0 (updXmin 0 { g with surfaces := s.id :: g.surfaces } s) s) s).bottom_bc) by
      rw [(updYmax_keeps _ _ s).2.2.2.2.1, (updYmax_keeps _ _ s).2.2.2.2.2.1]]
    rw [updYmin_action, (updXmax_keeps _ _ s).2.2.1, (updXmax_keeps _ _ s).2.2.2.1,
      (updXmin_keeps _ _ s).2.2.1, (updXmin_keeps _ _ s).2.2.2.1]
    cases hx : s.ymin <;>
      simp only [stepMin, keyYmin, hb, hx, bcFlag] <;>
      (repeat' split) <;> simp_all
  case boundaryNone =>
    simp only [stepMin, keyYmin, hb]

theorem addSurface_ymax_step (g : GeoState) (s : Surf) (h : s.id ∉ g.surfaces) :
    ((addSurface g s).y_max, (addSurface g s).top_bc) =
      stepMax keyYmax (g.y_max, g.top_bc) s := by
  rw [addSurface, if_neg h]
  cases hb : s.boundary
  case reflective =>
    rw [updYmax_action, (updYmin_keeps _ _ s).2.2.2.2.1, (updYmin_keeps _ _ s).2.2.2.2.2.1,
      (updXmax_keeps _ _ s).2.2.2.2.1, (updXmax_keeps _ _ s).2.2.2.2.2.1,
      (updXmin_keeps _ _ s).2.2.2.2.1, (updXmin_keeps _ _ s).2.2.2.2.2.1]
    cases hx : s.ymax <;>
      simp only [stepMax, keyYmax, hb, hx, bcFlag] <;>
      (repeat' split) <;> simp_all
  case vacuum =>
    rw [updYmax_action, (updYmin_keeps _ _ s).2.2.2.2.1, (updYmin_keeps _ _ s).2.2.2.2.2.1,
      (updXmax_keeps _ _ s).2.2.2.2.1, (updXmax_keeps _ _ s).2.2.2.2.2.1,
      (updXmin_keeps _ _ s).2.2.2.2.1, (updXmin_keeps _ _ s).2.2.2.2.2.1]
    cases hx : s.ymax <;>
      simp only [stepMax, keyYmax, hb, hx, bcFlag] <;>
      (repeat' split) <;> simp_all
  case boundaryNone =>
    simp only [stepMax, keyYmax, hb]

theorem addSurfaces_bridge (pr : GeoState → ℚ × Int) (step : (ℚ × Int) → Surf → ℚ × Int)
    (hstep : ∀ (g : GeoState) (s : Surf), s.id ∉ g.surfaces →
      pr (addSurface g s) = step (pr g) s) :
    ∀ (L : List Surf) (g : GeoState), (∀ s ∈ L, s.id ∉ g.surfaces) →
      L.Pairwise (fun a b => a.id ≠ b.id) →
      pr (addSurfaces g L) = L.foldl step (pr g) := by
  intro L
  induction L with
  | nil => intro g _ _; rfl
  | cons s L ih =>
    intro g hf hp
    have hfresh : s.id ∉ g.surfaces := hf s (List.mem_cons_self _ _)
    have hf2 : ∀ t ∈ L, t.id ∉ (addSurface g s).surfaces := by
      intro t ht
      rw [addSurface_surfaces g s hfresh]
      intro hmem
      rcases List.mem_cons.mp hmem with h1 | h2
      · exact (List.pairwise_cons.mp hp).1 t ht h1.symm
      · exact hf t (List.mem_cons_of_mem _ ht) h2
    have h3 := ih (addSurface g s) hf2 (List.pairwise_cons.mp hp).2
    rw [show addSurfaces g (s :: L) = addSurfaces (addSurface g s) L from rfl, h3,
      List.foldl_cons, hstep g s hfresh]

theorem foldl_stepMin_const (key : Surf → Option ℚ) :
    ∀ (L : List Surf) (c : ℚ) (f : Int),
      (∀ t ∈ L, ∀ w, key t = some w → ¬(w < c)) →
      L.foldl (stepMin key) (c, f) = (c, f) := by
  intro L
  induction L with
  | nil => intro c f _; rfl
  | cons s L ih =>
    intro c f hq
    rw [List.foldl_cons]
    have hs : stepMin key (c, f) s = (c, f) := by
      cases hk : key s with
      | none => simp [stepMin, hk]
      | some w =>
        have h1 := hq s (List.mem_cons_self _ _) w hk
        simp [stepMin, hk, h1]
    rw [hs]
    exact ih c f (fun t ht => hq t (List.mem_cons_of_mem _ ht))

theorem foldl_stepMax_const (key : Surf → Option ℚ) :
    ∀ (L : List Surf) (c : ℚ) (f : Int),
      (∀ t ∈ L, ∀ w, key t = some w → ¬(w > c)) →
      L.foldl (stepMax key) (c, f) = (c, f) := by
  intro L
  induction L with
  | nil => intro c f _; rfl
  | cons s L ih =>
    intro c f hq
    rw [List.foldl_cons]
    have hs : stepMax key (c, f) s = (c, f) := by
      cases hk : key s with
      | none => simp [stepMax, hk]
      | some w =>
        have h1 := hq s (List.mem_cons_self _ _) w hk
        simp [stepMax, hk, h1]
    rw [hs]
    exact ih c f (fun t ht => hq t (List.mem_cons_of_mem _ ht))

theorem foldl_stepMin_char (key : Surf → Option ℚ) :
    ∀ (L : List Surf) (c : ℚ) (f : Int),
      (∃ s ∈ L, ∃ v, key s = some v ∧ v < c) →
      ∃ L1 s L2 v, L = L1 ++ s :: L2 ∧ key s = some v ∧
        (L.foldl (stepMin key) (c, f)).1 = v ∧
        (L.foldl (stepMin key) (c, f)).2 = bcFlag s.boundary ∧
        v < c ∧
        (∀ t ∈ L1, ∀ w, key t = some w → v < w) ∧
        (∀ t ∈ L, ∀ w, key t = some w → v ≤ w) := by
  intro L
  induction L with
  | nil => rintro c f ⟨s, hs, _⟩; simp at hs
  | cons s0 L ih =>
    intro c f hex
    rw [List.foldl_cons]
    cases hk : key s0 with
    | none =>
      have hstep : stepMin key (c, f) s0 = (c, f) := by simp [stepMin, hk]
      rw [hstep]
      obtain ⟨s, hs, v, hv, hvc⟩ := hex
      have hsL : s ∈ L := by
        rcases List.mem_cons.mp hs with h1 | h2
        · exact absurd (h1 ▸ hv) (by rw [hk]; simp)
        · exact h2
      obtain ⟨L1, t, L2, v2, hdec, hkt, h1, h2, h3, h4, h5⟩ := ih c f ⟨s, hsL, v, hv, hvc⟩
      refine ⟨s0 :: L1, t, L2, v2, by rw [hdec]; rfl, hkt, h1, h2, h3, ?_, ?_⟩
      · intro t2 ht2 w hw
        rcases List.mem_cons.mp ht2 with he | he
        · exact absurd (he ▸ hw) (by rw [hk]; simp)
        · exact h4 t2 he w hw
      · intro t2 ht2 w hw
        rcases List.mem_cons.mp ht2 with he | he
        · exact absurd (he ▸ hw) (by rw [hk]; simp)
        · exact h5 t2 he w hw
    | some w =>
      by_cases hwc : w < c
      · have hstep : stepMin key (c, f) s0 = (w, bcFlag s0.boundary) := by
          simp [stepMin, hk, hwc]
        rw [hstep]
        by_cases hbetter : ∃ t ∈ L, ∃ u, key t = some u ∧ u < w
        · obtain ⟨L1, t, L2, v2, hdec, hkt, h1, h2, h3, h4, h5⟩ :=
            ih w (bcFlag s0.boundary) hbetter
          refine ⟨s0 :: L1, t, L2, v2, by rw [hdec]; rfl, hkt, h1, h2,
            lt_trans h3 hwc, ?_, ?_⟩
          · intro t2 ht2 u hu
            rcases List.mem_cons.mp ht2 with he | he
            · have hu2 : key s0 = some u := he ▸ hu
              rw [hk] at hu2
              injection hu2 with hu3
              rw [← hu3]
              exact h3
            · exact h4 t2 he u hu
          · intro t2 ht2 u hu
            rcases List.mem_cons.mp ht2 with he | he
            · have hu2 : key s0 = some u := he ▸ hu
              rw [hk] at hu2
              injection hu2 with hu3
              rw [← hu3]
              exact le_of_lt h3
            · exact h5 t2 he u hu
        · push_neg at hbetter
          have hconst := foldl_stepMin_const key L w (bcFlag s0.boundary)
            (fun t ht u hu => not_lt.mpr (hbetter t ht u hu))
          rw [hconst]
          refine ⟨[], s0, L, w, rfl, hk, rfl, rfl, hwc, by simp, ?_⟩
          intro t ht u hu
          rcases List.mem_cons.mp ht with he | he
          · have hu2 : key s0 = some u := he ▸ hu
            rw [hk] at hu2
            injection hu2 with hu3
            rw [← hu3]
          · exact hbetter t he u hu
      · have hstep : stepMin key (c, f) s0 = (c, f) := by
          simp [stepMin, hk, hwc]
        rw [hstep]
        obtain ⟨s, hs, v, hv, hvc⟩ := hex
        have hsL : s ∈ L := by
          rcases List.mem_cons.mp hs with h1 | h2
          · exfalso
            have hv2 : key s0 = some v := h1 ▸ hv
            rw [hk] at hv2
            injection hv2 with hv3
            exact hwc (hv3 ▸ hvc)
          · exact h2
        obtain ⟨L1, t, L2, v2, hdec, hkt, h1, h2, h3, h4, h5⟩ := ih c f ⟨s, hsL, v, hv, hvc⟩
        have hcw : c ≤ w := not_lt.mp hwc
        refine ⟨s0 :: L1, t, L2, v2, by rw [hdec]; rfl, hkt, h1, h2, h3, ?_, ?_⟩
        · intro t2 ht2 u hu
          rcases List.mem_cons.mp ht2 with he | he
          · have hu2 : key s0 = some u := he ▸ hu
            rw [hk] at hu2
            injection hu2 with hu3
            rw [← hu3]
            exact lt_of_lt_of_le h3 hcw
          · exact h4 t2 he u hu
        · intro t2 ht2 u hu
          rcases List.mem_cons.mp ht2 with he | he
          · have hu2 : key s0 = some u := he ▸ hu
            rw [hk] at hu2
            injection hu2 with hu3
            rw [← hu3]
            exact le_of_lt (lt_of_lt_of_le h3 hcw)
          · exact h5 t2 he u hu

theorem foldl_stepMax_char (key : Surf → Option ℚ) :
    ∀ (L : List Surf) (c : ℚ) (f : Int),
      (∃ s ∈ L, ∃ v, key s = some v ∧ v > c) →
      ∃ L1 s L2 v, L = L1 ++ s :: L2 ∧ key s = some v ∧
        (L.foldl (stepMax key) (c, f)).1 = v ∧
        (L.foldl (stepMax key) (c, f)).2 = bcFlag s.boundary ∧
        v > c ∧
        (∀ t ∈ L1, ∀ w, key t = some w → w < v) ∧
        (∀ t ∈ L, ∀ w, key t = some w → w ≤ v) := by
  intro L
  induction L with
  | nil => rintro c f ⟨s, hs, _⟩; simp at hs
  | cons s0 L ih =>
    intro c f hex
    rw [List.foldl_cons]
    cases hk : key s0 with
    | none =>
      have hstep : stepMax key (c, f) s0 = (c, f) := by simp [stepMax, hk]
      rw [hstep]
      obtain ⟨s, hs, v, hv, hvc⟩ := hex
      have hsL : s ∈ L := by
        rcases List.mem_cons.mp hs with h1 | h2
        · exact absurd (h1 ▸ hv) (by rw [hk]; simp)
        · exact h2
      obtain ⟨L1, t, L2, v2, hdec, hkt, h1, h2, h3, h4, h5⟩ := ih c f ⟨s, hsL, v, hv, hvc⟩
      refine ⟨s0 :: L1, t, L2, v2, by rw [hdec]; rfl, hkt, h1, h2, h3, ?_, ?_⟩
      · intro t2 ht2 w hw
        rcases List.mem_cons.mp ht2 with he | he
        · exact absurd (he ▸ hw) (by rw [hk]; simp)
        · exact h4 t2 he w hw
      · intro t2 ht2 w hw
        rcases List.mem_cons.mp ht2 with he | he
        · exact absurd (he ▸ hw) (by rw [hk]; simp)
        · exact h5 t2 he w hw
    | some w =>
      by_cases hwc : w > c
      · have hstep : stepMax key (c, f) s0 = (w, bcFlag s0.boundary) := by
          simp [stepMax, hk, hwc]
        rw [hstep]
        by_cases hbetter : ∃ t ∈ L, ∃ u, key t = some u ∧ u > w
        · obtain ⟨L1, t, L2, v2, hdec, hkt, h1, h2, h3, h4, h5⟩ :=
            ih w (bcFlag s0.boundary) hbetter
          refine ⟨s0 :: L1, t, L2, v2, by rw [hdec]; rfl, hkt, h1, h2,
            lt_trans hwc h3, ?_, ?_⟩
          · intro t2 ht2 u hu
            rcases List.mem_cons.mp ht2 with he | he
            · have hu2 : key s0 = some u := he ▸ hu
              rw [hk] at hu2
              injection hu2 with hu3
              rw [← hu3]
              exact h3
            · exact h4 t2 he u hu
          · intro t2 ht2 u hu
            rcases List.mem_cons.mp ht2 with he | he
            · have hu2 : key s0 = some u := he ▸ hu
              rw [hk] at hu2
              injection hu2 with hu3
              rw [← hu3]
              exact le_of_lt h3
            · exact h5 t2 he u hu
        · push_neg at hbetter
          have hconst := foldl_stepMax_const key L w (bcFlag s0.boundary)
            (fun t ht u hu => not_lt.mpr (hbetter t ht u hu))
          rw [hconst]
          refine ⟨[], s0, L, w, rfl, hk, rfl, rfl, hwc, by simp, ?_⟩
          intro t ht u hu
          rcases List.mem_cons.mp ht with he | he
          · have hu2 : key s0 = some u := he ▸ hu
            rw [hk] at hu2
            injection hu2 with hu3
            rw [← hu3]
          · exact hbetter t he u hu
      · have hstep : stepMax key (c, f) s0 = (c, f) := by
          simp [stepMax, hk, hwc]
        rw [hstep]
        obtain ⟨s, hs, v, hv, hvc⟩ := hex
        have hsL : s ∈ L := by
          rcases List.mem_cons.mp hs with h1 | h2
          · exfalso
            have hv2 : key s0 = some v := h1 ▸ hv
            rw [hk] at hv2
            injection hv2 with hv3
            exact hwc (hv3 ▸ hvc)
          · exact h2
        obtain ⟨L1, t, L2, v2, hdec, hkt, h1, h2, h3, h4, h5⟩ := ih c f ⟨s, hsL, v, hv, hvc⟩
        have hcw : w ≤ c := not_lt.mp hwc
        refine ⟨s0 :: L1, t, L2, v2, by rw [hdec]; rfl, hkt, h1, h2, h3, ?_, ?_⟩
        · intro t2 ht2 u hu
          rcases List.mem_cons.mp ht2 with he | he
          · have hu2 : key s0 = some u := he ▸ hu
            rw [hk] at hu2
            injection hu2 with hu3
            rw [← hu3]
            exact lt_of_le_of_lt hcw h3
          · exact h4 t2 he u hu
        · intro t2 ht2 u hu
          rcases List.mem_cons.mp ht2 with he | he
          · have hu2 : key s0 = some u := he ▸ hu
            rw [hk] at hu2
            injection hu2 with hu3
            rw [← hu3]
            exact le_of_lt (lt_of_le_of_lt hcw h3)
          · exact h5 t2 he u hu

/-- C7: after a finite sequence of `addSurface` calls with distinct ids,
each of the four bounds equals the extremal finite extent over the added
REFLECTIVE or VACUUM surfaces (BOUNDARY_NONE surfaces and infinite extents
offer no candidate — `key* = none`), and the corresponding BC flag carries
the boundary type (1 for REFLECTIVE, 0 for VACUUM) of the surface that set
that bound: the first surface in call order attaining the extremum, every
earlier candidate being strictly worse and every candidate no better. -/
theorem C7_bc_accumulation (L : List Surf)
    (hdist : L.Pairwise (fun a b => a.id ≠ b.id)) :
    ((∃ s ∈ L, ∃ v, keyXmin s = some v ∧ v < dblMax) →
      ∃ L1 s L2 v, L = L1 ++ s :: L2 ∧ keyXmin s = some v ∧
        (addSurfaces initGeo L).x_min = v ∧
        (addSurfaces initGeo L).left_bc = bcFlag s.boundary ∧
        (∀ t ∈ L1, ∀ w, keyXmin t = some w → v < w) ∧
        (∀ t ∈ L, ∀ w, keyXmin t = some w → v ≤ w)) ∧
    ((∃ s ∈ L, ∃ v, keyXmax s = some v ∧ v > -dblMax) →
      ∃ L1 s L2 v, L = L1 ++ s :: L2 ∧ keyXmax s = some v ∧
        (addSurfaces initGeo L).x_max = v ∧
        (addSurfaces initGeo L).right_bc = bcFlag s.boundary ∧
        (∀ t ∈ L1, ∀ w, keyXmax t = some w → w < v) ∧
        (∀ t ∈ L, ∀ w, keyXmax t = some w → w ≤ v)) ∧
    ((∃ s ∈ L, ∃ v, keyYmin s = some v ∧ v < dblMax) →
      ∃ L1 s L2 v, L = L1 ++ s :: L2 ∧ keyYmin s = some v ∧
        (addSurfaces initGeo L).y_min = v ∧
        (addSurfaces initGeo L).bottom_bc = bcFlag s.boundary ∧
        (∀ t ∈ L1, ∀ w, keyYmin t = some w → v < w) ∧
        (∀ t ∈ L, ∀ w, keyYmin t = some w → v ≤ w)) ∧
    ((∃ s ∈ L, ∃ v, keyYmax s = some v ∧ v > -dblMax) →
      ∃ L1 s L2 v, L = L1 ++ s :: L2 ∧ keyYmax s = some v ∧
        (addSurfaces initGeo L).y_max = v ∧
        (addSurfaces initGeo L).top_bc = bcFlag s.boundary ∧
        (∀ t ∈ L1, ∀ w, keyYmax t = some w → w < v) ∧
        (∀ t ∈ L, ∀ w, keyYmax t = some w → w ≤ v)) := by
  have hfresh : ∀ s ∈ L, s.id ∉ initGeo.surfaces := by
    intro s _
    simp [initGeo]
  refine ⟨?_, ?_, ?_, ?_⟩
  · intro hex
    have hbx : ((addSurfaces initGeo L).x_min, (addSurfaces initGeo L).left_bc) =
        L.foldl (stepMin keyXmin) (dblMax, 1) :=
      addSurfaces_bridge (fun g => (g.x_min, g.left_bc)) (stepMin keyXmin)
        (fun g s h => addSurface_xmin_step g s h) L initGeo hfresh hdist
    have e1 : (addSurfaces initGeo L).x_min =
        (L.foldl (stepMin keyXmin) (dblMax, 1)).1 := congrArg Prod.fst hbx
    have e2 : (addSurfaces initGeo L).left_bc =
        (L.foldl (stepMin keyXmin) (dblMax, 1)).2 := congrArg Prod.snd hbx
    obtain ⟨L1, s, L2, v, hdec, hks, h1, h2, _, h4, h5⟩ :=
      foldl_stepMin_char keyXmin L dblMax 1 hex
    exact ⟨L1, s, L2, v, hdec, hks, e1.trans h1, e2.trans h2, h4, h5⟩
  · intro hex
    have hbx : ((addSurfaces initGeo L).x_max, (addSurfaces initGeo L).right_bc) =
        L.foldl (stepMax keyXmax) (-dblMax, 1) :=
      addSurfaces_bridge (fun g => (g.x_max, g.right_bc)) (stepMax keyXmax)
        (fun g s h => addSurface_xmax_step g s h) L initGeo hfresh hdist
    have e1 : (addSurfaces initGeo L).x_max =
        (L.foldl (stepMax keyXmax) (-dblMax, 1)).1 := congrArg Prod.fst hbx
    have e2 : (addSurfaces initGeo L).right_bc =
        (L.foldl (stepMax keyXmax) (-dblMax, 1)).2 := congrArg Prod.snd hbx
    obtain ⟨L1, s, L2, v, hdec, hks, h1, h2, _, h4, h5⟩ :=
      foldl_stepMax_char keyXmax L (-dblMax) 1 hex
    exact ⟨L1, s, L2, v, hdec, hks, e1.trans h1, e2.trans h2, h4, h5⟩
  · intro hex
    have hbx : ((addSurfaces initGeo L).y_min, (addSurfaces initGeo L).bottom_bc) =
        L.foldl (stepMin keyYmin) (dblMax, 1) :=
      addSurfaces_bridge (fun g => (g.y_min, g.bottom_bc)) (stepMin keyYmin)
        (fun g s h => addSurface_ymin_step g s h) L initGeo hfresh hdist
    have e1 : (addSurfaces initGeo L).y_min =
        (L.foldl (stepMin keyYmin) (dblMax, 1)).1 := congrArg Prod.fst hbx
    have e2 : (addSurfaces initGeo L).bottom_bc =
        (L.foldl (stepMin keyYmin) (dblMax, 1)).2 := congrArg Prod.snd hbx
    obtain ⟨L1, s, L2, v, hdec, hks, h1, h2, _, h4, h5⟩ :=
      foldl_stepMin_char keyYmin L dblMax 1 hex
    exact ⟨L1, s, L2, v, hdec, hks, e1.trans h1, e2.trans h2, h4, h5⟩
  · intro hex
    have hbx : ((addSurfaces initGeo L).y_max, (addSurfaces initGeo L).top_bc) =
        L.foldl (stepMax keyYmax) (-dblMax, 1) :=
      addSurfaces_bridge (fun g => (g.y_max, g.top_bc)) (stepMax keyYmax)
        (fun g s h => addSurface_ymax_step g s h) L initGeo hfresh hdist
    have e1 : (addSurfaces initGeo L).y_max =
        (L.foldl (stepMax keyYmax) (-dblMax, 1)).1 := congrArg Prod.fst hbx
    have e2 : (addSurfaces initGeo L).top_bc =
        (L.foldl (stepMax keyYmax) (-dblMax, 1)).2 := congrArg Prod.snd hbx
    obtain ⟨L1, s, L2, v, hdec, hks, h1, h2, _, h4, h5⟩ :=
      foldl_stepMax_char keyYmax L (-dblMax) 1 hex
    exact ⟨L1, s, L2, v, hdec, hks, e1.trans h1, e2.trans h2, h4, h5⟩

/-- Reflective box surface: extents `[-1, 1]` on both axes. -/
def c7s1 : Surf := ⟨1, BType.reflective, Ext.fin (-1), Ext.fin 1, Ext.fin (-1), Ext.fin 1⟩

/-- Vacuum surface widening the x range on the left, y extents infinite. -/
def c7s2 : Surf := ⟨2, BType.vacuum, Ext.fin (-2), Ext.fin 0, Ext.ninf, Ext.pinf⟩

theorem C7_bc_accumulation_witness :
    (∃ L1 s L2 v, [c7s1, c7s2] = L1 ++ s :: L2 ∧ keyXmin s = some v ∧
      (addSurfaces initGeo [c7s1, c7s2]).x_min = v ∧
      (addSurfaces initGeo [c7s1, c7s2]).left_bc = bcFlag s.boundary ∧
      (∀ t ∈ L1, ∀ w, keyXmin t = some w → v < w) ∧
      (∀ t ∈ [c7s1, c7s2], ∀ w, keyXmin t = some w → v ≤ w)) ∧
    (∃ L1 s L2 v, [c7s1, c7s2] = L1 ++ s :: L2 ∧ keyXmax s = some v ∧
      (addSurfaces initGeo [c7s1, c7s2]).x_max = v ∧
      (addSurfaces initGeo [c7s1, c7s2]).right_bc = bcFlag s.boundary ∧
      (∀ t ∈ L1, ∀ w, keyXmax t = some w → w < v) ∧
      (∀ t ∈ [c7s1, c7s2], ∀ w, keyXmax t = some w → w ≤ v)) ∧
    (∃ L1 s L2 v, [c7s1, c7s2] = L1 ++ s :: L2 ∧ keyYmin s = some v ∧
      (addSurfaces initGeo [c7s1, c7s2]).y_min = v ∧
      (addSurfaces initGeo [c7s1, c7s2]).bottom_bc = bcFlag s.boundary ∧
      (∀ t ∈ L1, ∀ w, keyYmin t = some w → v < w) ∧
      (∀ t ∈ [c7s1, c7s2], ∀ w, keyYmin t = some w → v ≤ w)) ∧
    (∃ L1 s L2 v, [c7s1, c7s2] = L1 ++ s :: L2 ∧ keyYmax s = some v ∧
      (addSurfaces initGeo [c7s1, c7s2]).y_max = v ∧
      (addSurfaces initGeo [c7s1, c7s2]).top_bc = bcFlag s.boundary ∧
      (∀ t ∈ L1, ∀ w, keyYmax t = some w → w < v) ∧
      (∀ t ∈ [c7s1, c7s2], ∀ w, keyYmax t = some w → w ≤ v)) := by
  have hdist : ([c7s1, c7s2] : List Surf).Pairwise (fun a b => a.id ≠ b.id) := by
    simp [c7s1, c7s2, List.pairwise_cons]
  have hthm := C7_bc_accumulation [c7s1, c7s2] hdist
  refine ⟨hthm.1 ?_, hthm.2.1 ?_, hthm.2.2.1 ?_, hthm.2.2.2 ?_⟩
  · exact ⟨c7s2, by simp, -2, rfl, by norm_num [dblMax]⟩
  · exact ⟨c7s1, by simp, 1, rfl, by norm_num [dblMax]⟩
  · exact ⟨c7s1, by simp, -1, rfl, by norm_num [dblMax]⟩
  · exact ⟨c7s1, by simp, 1, rfl, by norm_num [dblMax]⟩

end OpenMOC
